import Mathlib

/-
Verification development for the pool supervisor (`ContainerPool` in
`src/main.py`) of the VPN proxy pool repository. The Python class is given
a shallow embedding: every provisioner call becomes an explicit oracle
argument (`CallResult`), dictionaries become association lists, Python sets
become `Finset String`, and each method becomes a pure state-transformer.
-/

set_option linter.unusedVariables false

namespace VpnPool

/-- Result dictionary returned by a provisioner call (`create_vpn_proxy` or
`restart_and_check` in `vpn_manager.py`) as consumed by `main.py`. Keys
that the pool reads with `.get` and may be absent are `Option`s; a missing
or empty `container_name` is modelled as `""` (both are falsy in the
source's `if not name` guard). -/
structure ProvResult where
  status : Option String
  message : Option String
  container_id : String
  container_name : String
  proxy_port : Nat
  proxy_url : String
  ip_seen : String
deriving DecidableEq, Repr

/-- A worker record stored in `ContainerPool.registry`: the provisioner
result copied (`dict(result)`) with `status` defaulted to `"ok"` by
`setdefault`, plus the `state` and `last_updated` keys that
`_store_valid_locked` sets. -/
structure Entry where
  status : Option String
  message : Option String
  container_id : String
  container_name : String
  proxy_port : Nat
  proxy_url : String
  ip_seen : String
  state : String
  last_updated : Nat
deriving DecidableEq, Repr

/-- The sanitized snapshot built by `_sanitize_entry` for a present entry:
only the six public keys, with `status` defaulting to `"ok"`. -/
structure Sanitized where
  status : String
  container_id : String
  container_name : String
  proxy_port : Nat
  proxy_url : String
  ip_seen : String
deriving DecidableEq, Repr

/-- A task record on `ContainerPool.task_queue`. The attempt counter is an
integer because `_handle_create_task` resets it to `-1` on exhaustion. -/
inductive PTask where
  | create (attempts : Int)
  | repair (name : String) (attempts : Int)
deriving DecidableEq, Repr

/-- An external provisioner call issued by a pool operation; returned as a
trace so that best-effort deletes are observable in theorems. -/
inductive ExtCall where
  | restartAndCheck (name : String)
  | deleteProxy (name : String)
deriving DecidableEq, Repr

/-- Outcome of one provisioner call: either the returned dictionary or a
raised exception with its string form. -/
inductive CallResult where
  | ret (r : ProvResult)
  | exn (msg : String)
deriving DecidableEq, Repr

/-- Whether a provisioner call returned a dictionary with `status = "ok"`
(an exception counts as failure, as in the source's `try` blocks). -/
def CallResult.isOk : CallResult → Bool
  | .ret r => decide (r.status = some "ok")
  | .exn _ => false

/-- The mutable state of `ContainerPool` that is guarded by the pool lock,
plus the task queue. `notify_count` counts `condition.notify_all()` events
so that waiter notification is observable. -/
structure PoolState where
  target_size : Nat
  max_repair_attempts : Nat
  registry : List (String × Entry)
  valid_queue : List String
  valid_set : Finset String
  pending_repairs : Finset String
  pending_creates : Nat
  task_queue : List PTask
  started : Bool
  start_worker : Bool
  needs_restart : Finset String
  restart_wait_seconds : Int
  notify_count : Nat
deriving DecidableEq

/-- Lookup in a Python-dict association list (first binding wins). -/
def dictGet (k : String) : List (String × Entry) → Option Entry
  | [] => none
  | (k', v) :: rest => if k' = k then some v else dictGet k rest

/-- Python `d[k] = v`: replace the binding in place, else append. -/
def dictInsert (k : String) (v : Entry) : List (String × Entry) → List (String × Entry)
  | [] => [(k, v)]
  | (k', v') :: rest => if k' = k then (k, v) :: rest else (k', v') :: dictInsert k v rest

/-- Python `d.pop(k, None)`: drop the binding for `k`. -/
def dictRemove (k : String) (reg : List (String × Entry)) : List (String × Entry) :=
  reg.filter (fun p => p.1 ≠ k)

/-- `_sanitize_entry` applied to a present (non-falsy) entry. -/
def sanitize_entry (e : Entry) : Sanitized :=
  { status := e.status.getD "ok"
    container_id := e.container_id
    container_name := e.container_name
    proxy_port := e.proxy_port
    proxy_url := e.proxy_url
    ip_seen := e.ip_seen }

/-- The entry built inside `_store_valid_locked`: `dict(result)` with
`status` defaulted by `setdefault`, `state = "valid"` and a fresh
`last_updated` stamp. -/
def Entry.ofResult (r : ProvResult) (now : Nat) : Entry :=
  { status := some (r.status.getD "ok")
    message := r.message
    container_id := r.container_id
    container_name := r.container_name
    proxy_port := r.proxy_port
    proxy_url := r.proxy_url
    ip_seen := r.ip_seen
    state := "valid"
    last_updated := now }

/-- `ContainerPool._store_valid_locked`. The first component is the stored
entry; `none` models the `return {}` taken on a falsy `container_name`.
`deque.remove` removes the first occurrence, hence `List.erase`. -/
def store_valid_locked (r : ProvResult) (now : Nat) (s : PoolState) :
    Option Entry × PoolState :=
  if r.container_name = "" then (none, s)
  else
    let e := Entry.ofResult r now
    (some e,
      { s with
        registry := dictInsert r.container_name e s.registry
        valid_queue := s.valid_queue.erase r.container_name ++ [r.container_name]
        valid_set := insert r.container_name s.valid_set
        needs_restart := s.needs_restart.erase r.container_name
        pending_repairs := s.pending_repairs.erase r.container_name
        notify_count := s.notify_count + 1 })

/-- Loop of `ContainerPool.get_valid`, walking the queue front-first:
skip names outside `valid_set`; discard from `valid_set` names whose
registry record is missing or not `valid`; rotate the first good name to
the back and return its entry. Returns the handed-out entry, the final
queue and the final `valid_set`. -/
def get_valid_loop (reg : List (String × Entry)) :
    Finset String → List String → Option Entry × List String × Finset String
  | vset, [] => (none, [], vset)
  | vset, name :: rest =>
    if name ∈ vset then
      match dictGet name reg with
      | some e =>
        if e.state = "valid" then (some e, rest ++ [name], vset)
        else get_valid_loop reg (vset.erase name) rest
      | none => get_valid_loop reg (vset.erase name) rest
    else get_valid_loop reg vset rest

/-- `ContainerPool.get_valid`. It is a pure state transformer: it takes no
provisioner oracle, matching the source's promise not to perform I/O. -/
def get_valid (s : PoolState) : Option Sanitized × PoolState :=
  let t := get_valid_loop s.registry s.valid_set s.valid_queue
  (t.1.map sanitize_entry, { s with valid_queue := t.2.1, valid_set := t.2.2 })

/-- `ContainerPool._mark_invalid_locked`. -/
def mark_invalid_locked (name : String) (now : Nat) (s : PoolState) : PoolState :=
  match dictGet name s.registry with
  | none => s
  | some e =>
    { s with
      registry := dictInsert name { e with state := "invalid", last_updated := now } s.registry
      valid_set := s.valid_set.erase name
      valid_queue := s.valid_queue.erase name }

/-- `ContainerPool._flag_container_for_restart`; `none` models the raised
`KeyError`. -/
def flag_container_for_restart (name : String) (now : Nat) (s : PoolState) :
    Option PoolState :=
  match dictGet name s.registry with
  | none => none
  | some _ =>
    let s1 := mark_invalid_locked name now s
    some { s1 with needs_restart := insert name s1.needs_restart }

/-- `ContainerPool._direct_create`. `prov` is the outcome of
`manager.create_vpn_proxy()`; an exception or non-`"ok"` status yields
`none` and leaves the pool untouched. -/
def direct_create (prov : CallResult) (now : Nat) (s : PoolState) :
    Option Entry × PoolState :=
  match prov with
  | .exn _ => (none, s)
  | .ret r =>
    if r.status = some "ok" then store_valid_locked r now s
    else (none, s)

/-- `ContainerPool.create_sync`. -/
def create_sync (prov : CallResult) (now : Nat) (s : PoolState) :
    Option Sanitized × PoolState :=
  let t := direct_create prov now s
  (t.1.map sanitize_entry, t.2)

/-- Errors raised by `mark_for_restart`. -/
inductive PoolErr where
  | keyError (name : String)
  | noAvailableContainer
deriving DecidableEq, Repr

/-- `ContainerPool.mark_for_restart` (the body of `schedule_restart`).
`prov` feeds the `create_sync` fallback. The second component is the pool
state at the moment the call returns or raises. -/
def mark_for_restart (name : String) (prov : CallResult) (now : Nat)
    (s : PoolState) : Except PoolErr Sanitized × PoolState :=
  match flag_container_for_restart name now s with
  | none => (.error (.keyError name), s)
  | some s1 =>
    let g := get_valid s1
    match g.1 with
    | some r => (.ok r, g.2)
    | none =>
      let c := create_sync prov now g.2
      match c.1 with
      | some r => (.ok r, c.2)
      | none => (.error .noAvailableContainer, c.2)

/-- `ContainerPool.schedule_restart` delegates to `mark_for_restart`. -/
def schedule_restart (name : String) (prov : CallResult) (now : Nat)
    (s : PoolState) : Except PoolErr Sanitized × PoolState :=
  mark_for_restart name prov now s

/-- Python `if self.pending_creates > 0: self.pending_creates -= 1`. -/
def dec_pending (s : PoolState) : PoolState :=
  if 0 < s.pending_creates then { s with pending_creates := s.pending_creates - 1 }
  else s

/-- `ContainerPool._schedule_create`. `prov` is consumed only on the
synchronous fallback path taken when `start_worker` is false. -/
def schedule_create (prov : CallResult) (now : Nat) (s : PoolState) : PoolState :=
  if s.target_size = 0 then s
  else if s.target_size ≤ s.registry.length + s.pending_creates then s
  else if s.start_worker then
    { s with pending_creates := s.pending_creates + 1
             task_queue := s.task_queue ++ [.create 0] }
  else
    dec_pending
      (direct_create prov now { s with pending_creates := s.pending_creates + 1 }).2

/-- Failure branch of `_handle_create_task`: on exhaustion the counter is
reset to `-1` before the re-enqueue with `attempts + 1`. -/
def handle_create_task_fail (attempts : Int) (s : PoolState) : PoolState :=
  { s with task_queue := s.task_queue ++
      [.create ((if (s.max_repair_attempts : Int) ≤ attempts + 1 then (-1 : Int)
          else attempts) + 1)] }

/-- `ContainerPool._handle_create_task`. -/
def handle_create_task (attempts : Int) (prov : CallResult) (now : Nat)
    (s : PoolState) : PoolState :=
  match prov with
  | .ret r =>
    if r.status = some "ok" then dec_pending (store_valid_locked r now s).2
    else handle_create_task_fail attempts s
  | .exn _ => handle_create_task_fail attempts s

/-- `ContainerPool._remove_container_locked`. -/
def remove_container_locked (name : String) (s : PoolState) : Bool × PoolState :=
  ((dictGet name s.registry).isSome,
    { s with
      registry := dictRemove name s.registry
      valid_set := s.valid_set.erase name
      valid_queue := s.valid_queue.erase name
      pending_repairs := s.pending_repairs.erase name
      needs_restart := s.needs_restart.erase name })

/-- Failure branch of `_handle_repair_task`: replace on exhaustion
(best-effort delete, removal, replacement create), otherwise re-enqueue
with an incremented counter. `dres`, the outcome of `delete_proxy`, is
deliberately unused: the source tolerates deletion failure. -/
def handle_repair_task_fail (name : String) (attempts : Int) (dres : CallResult)
    (provC : CallResult) (now : Nat) (s : PoolState) : PoolState × List ExtCall :=
  if (s.max_repair_attempts : Int) ≤ attempts + 1 then
    let s1 := (remove_container_locked name s).2
    let s2 := { s1 with pending_repairs := s1.pending_repairs.erase name }
    (schedule_create provC now s2, [.restartAndCheck name, .deleteProxy name])
  else
    ({ s with task_queue := s.task_queue ++ [.repair name (attempts + 1)] },
      [.restartAndCheck name])

/-- `ContainerPool._handle_repair_task`. `rres` is the outcome of
`restart_and_check`; `dres` the outcome of the best-effort `delete_proxy`;
`provC` feeds a synchronous replacement create. Also returns the external
calls issued. -/
def handle_repair_task (name : String) (attempts : Int) (rres : CallResult)
    (dres : CallResult) (provC : CallResult) (now : Nat) (s : PoolState) :
    PoolState × List ExtCall :=
  if name = "" then (s, [])
  else
    match rres with
    | .ret r =>
      if r.status = some "ok" then
        let s1 := (store_valid_locked r now s).2
        ({ s1 with pending_repairs := s1.pending_repairs.erase name },
          [.restartAndCheck name])
      else handle_repair_task_fail name attempts dres provC now s
    | .exn _ => handle_repair_task_fail name attempts dres provC now s

/-- `ContainerPool._gather_sweep_targets`: `needs_restart` together with
every registry name whose record is not `valid`. -/
def gather_sweep_targets (s : PoolState) : Finset String :=
  s.needs_restart ∪
    (s.registry.filterMap fun p => if p.2.state ≠ "valid" then some p.1 else none).toFinset

/-- One outcome dictionary appended to `processed` by the sweeper. -/
inductive SweepReport where
  | missing (container_name : String)
  | recovered (container : Option Sanitized) (attempts : Nat) (container_name : String)
  | replaced (container_name : String) (attempts : Nat) (error : String)
deriving DecidableEq, Repr

/-- The `container_name` key common to every sweep report. -/
def SweepReport.cname : SweepReport → String
  | .missing n => n
  | .recovered _ _ n => n
  | .replaced n _ _ => n

/-- Python `last_error or "restart_failed"`: `None` and `""` are falsy. -/
def error_message : Option String → String
  | none => "restart_failed"
  | some m => if m = "" then "restart_failed" else m

/-- Retry loop of `_restart_with_retries`. `results i` is the outcome of
the `(i+1)`-st `restart_and_check` call; `clock i` the `(i+1)`-st reading
of `time.time()` after the one fixing the deadline; `fuel` equals
`max_repair_attempts - attempts` so the `attempts < max` guard is the
`fuel = 0` case. On first success returns the recovered report and the
post-store state; otherwise the loop's final `attempts` and `last_error`. -/
def rwr_loop (name : String) (results : Nat → CallResult) (clock : Nat → Int)
    (deadline : Int) (maxAtt : Nat) (now : Nat) (s : PoolState) :
    Nat → Nat → Nat → Option String → (SweepReport × PoolState) ⊕ (Nat × Option String)
  | 0, attempts, _tIdx, lastErr => .inr (attempts, lastErr)
  | fuel + 1, attempts, tIdx, lastErr =>
    if deadline < clock tIdx then .inr (attempts, lastErr)
    else
      match results attempts with
      | .ret r =>
        if r.status = some "ok" then
          let es := store_valid_locked r now s
          .inl (.recovered (es.1.map sanitize_entry) (attempts + 1) name, es.2)
        else
          if maxAtt ≤ attempts + 1 ∨ deadline - clock (tIdx + 1) ≤ 0 then
            .inr (attempts + 1, r.message)
          else
            rwr_loop name results clock deadline maxAtt now s fuel (attempts + 1) (tIdx + 2)
              r.message
      | .exn m =>
          if maxAtt ≤ attempts + 1 ∨ deadline - clock (tIdx + 1) ≤ 0 then
            .inr (attempts + 1, some m)
          else
            rwr_loop name results clock deadline maxAtt now s fuel (attempts + 1) (tIdx + 2)
              (some m)

/-- `ContainerPool._restart_with_retries`. `clock 0` is the reading that
fixes the deadline. Returns the report, the final state, and the
best-effort delete call issued on the replace path. -/
def restart_with_retries (name : String) (results : Nat → CallResult)
    (clock : Nat → Int) (provC : CallResult) (now : Nat) (s : PoolState) :
    SweepReport × PoolState × List ExtCall :=
  match dictGet name s.registry with
  | none =>
    (.missing name, { s with needs_restart := s.needs_restart.erase name }, [])
  | some _ =>
    let deadline := clock 0 + s.restart_wait_seconds
    match rwr_loop name results clock deadline s.max_repair_attempts now s
        s.max_repair_attempts 0 1 none with
    | .inl (rep, s1) => (rep, s1, [])
    | .inr (attempts, lastErr) =>
      let rs := remove_container_locked name s
      let s2 := if rs.1 then schedule_create provC now rs.2 else rs.2
      (.replaced name (if attempts = 0 then s.max_repair_attempts else attempts)
          (error_message lastErr), s2, [.deleteProxy name])

/-- Loop body of `run_sweeper`: process each target in order, threading the
pool state; every target yields exactly one report. -/
def sweep_go (results : String → Nat → CallResult) (clock : String → Nat → Int)
    (provC : String → CallResult) (now : Nat) :
    List String → PoolState → List SweepReport × PoolState
  | [], s => ([], s)
  | n :: rest, s =>
    let o := restart_with_retries n (results n) (clock n) (provC n) now s
    let r := sweep_go results clock provC now rest o.2.1
    (o.1 :: r.1, r.2)

/-- Deterministic enumeration of the sweep targets (Python iterates the
set in an unspecified order; the model fixes the lexicographic one). -/
def sweep_target_list (s : PoolState) : List String :=
  (gather_sweep_targets s).sort (fun a b => a ≤ b)

/-- `ContainerPool.run_sweeper`. -/
def run_sweeper (results : String → Nat → CallResult) (clock : String → Nat → Int)
    (provC : String → CallResult) (now : Nat) (s : PoolState) :
    List SweepReport × PoolState :=
  sweep_go results clock provC now (sweep_target_list s) s

/-- Names that a `get_valid` walk discards from `valid_set`: the popped
entries that are in the (current) `valid_set` but whose registry record is
missing or not `valid`. Mirrors the recursion of `get_valid_loop`. -/
def get_valid_discards (reg : List (String × Entry)) :
    Finset String → List String → List String
  | _, [] => []
  | vset, name :: rest =>
    if name ∈ vset then
      match dictGet name reg with
      | some e =>
        if e.state = "valid" then []
        else name :: get_valid_discards reg (vset.erase name) rest
      | none => name :: get_valid_discards reg (vset.erase name) rest
    else get_valid_discards reg vset rest

/-- A queue name is good for handout when it is in `valid_set` and its
registry record exists in state `"valid"`. -/
def goodName (reg : List (String × Entry)) (vset : Finset String) (n : String) : Prop :=
  n ∈ vset ∧ (dictGet n reg).map Entry.state = some "valid"

instance (reg : List (String × Entry)) (vset : Finset String) (n : String) :
    Decidable (goodName reg vset n) :=
  instDecidableAnd

/-- Iterated handout: the results of `k` consecutive `get_valid` calls and
the state left after them. -/
def acquire_seq : Nat → PoolState → List (Option Sanitized) × PoolState
  | 0, s => ([], s)
  | k + 1, s =>
    let p := get_valid s
    let q := acquire_seq k p.2
    (p.1 :: q.1, q.2)

/-- Spec invariant 3: `|registry| + pending_creates ≤ target_size`. -/
def commit_bound (s : PoolState) : Prop :=
  s.registry.length + s.pending_creates ≤ s.target_size

instance (s : PoolState) : Decidable (commit_bound s) := by
  unfold commit_bound; infer_instance

/-- A sample valid entry used by witnesses and counterexamples. -/
def exEntry (name : String) (st : String) : Entry :=
  { status := some "ok", message := none, container_id := "cid"
    container_name := name, proxy_port := 8888
    proxy_url := "http://127.0.0.1:8888", ip_seen := "10.0.0.1"
    state := st, last_updated := 0 }

/-- A sample successful provisioner result used by witnesses. -/
def exResult (name : String) : ProvResult :=
  { status := some "ok", message := none, container_id := "cid2"
    container_name := name, proxy_port := 8889
    proxy_url := "http://127.0.0.1:8889", ip_seen := "10.0.0.2" }

/-- An empty pool with `target_size = 1` used as a base for concrete
states in witnesses and counterexamples. -/
def emptyPool : PoolState :=
  { target_size := 1, max_repair_attempts := 3, registry := [], valid_queue := []
    valid_set := ∅, pending_repairs := ∅, pending_creates := 0, task_queue := []
    started := true, start_worker := true, needs_restart := ∅
    restart_wait_seconds := 15, notify_count := 0 }

/-- A pool holding two valid workers `A` and `B`, in that queue order. -/
def poolAB : PoolState :=
  { emptyPool with
    target_size := 2
    registry := [("A", exEntry "A" "valid"), ("B", exEntry "B" "valid")]
    valid_queue := ["A", "B"]
    valid_set := {"A", "B"} }

/-- A pool at `target_size = 1` whose single registry entry is invalid;
the commit-bound invariant holds here but a direct create breaks it. -/
def poolC1 : PoolState :=
  { emptyPool with registry := [("w1", exEntry "w1" "invalid")] }

/-- A pool with one valid worker `w1`, queued and in `valid_set`. -/
def poolC8 : PoolState :=
  { emptyPool with
    registry := [("w1", exEntry "w1" "valid")]
    valid_queue := ["w1"]
    valid_set := {"w1"} }

/-- A provisioner result whose `container_name` is falsy. -/
def blankResult : ProvResult := { exResult "z" with container_name := "" }

/-- A two-worker pool in which `A` has gone invalid while still queued and
in `valid_set`, and `B` is valid. -/
def poolMix : PoolState :=
  { emptyPool with
    target_size := 2
    registry := [("A", exEntry "A" "invalid"), ("B", exEntry "B" "valid")]
    valid_queue := ["A", "B"]
    valid_set := {"A", "B"} }

/-
Helper lemmas about the dictionary operations.
-/

theorem dictGet_insert_self (k : String) (v : Entry) (reg : List (String × Entry)) :
    dictGet k (dictInsert k v reg) = some v := by
  induction reg with
  | nil => simp [dictInsert, dictGet]
  | cons p rest ih =>
    obtain ⟨k', v'⟩ := p
    by_cases h : k' = k
    · simp [dictInsert, h, dictGet]
    · simp [dictInsert, h, dictGet, ih]

theorem dictGet_insert_ne (k k' : String) (v : Entry) (reg : List (String × Entry))
    (h : k ≠ k') : dictGet k (dictInsert k' v reg) = dictGet k reg := by
  have h' : ¬ k' = k := fun hh => h hh.symm
  induction reg with
  | nil => simp [dictInsert, dictGet, h']
  | cons p rest ih =>
    obtain ⟨k₀, v₀⟩ := p
    by_cases h0 : k₀ = k'
    · subst h0
      simp [dictInsert, dictGet, h']
    · simp only [dictInsert, if_neg h0]
      by_cases h1 : k₀ = k
      · simp [dictGet, h1]
      · simp [dictGet, h1, ih]

theorem length_dictInsert_mem (k : String) (v : Entry) (reg : List (String × Entry))
    (h : (dictGet k reg).isSome) : (dictInsert k v reg).length = reg.length := by
  induction reg with
  | nil => simp [dictGet] at h
  | cons p rest ih =>
    obtain ⟨k', v'⟩ := p
    by_cases h0 : k' = k
    · simp [dictInsert, h0]
    · simp only [dictGet, if_neg h0] at h
      simp [dictInsert, if_neg h0, ih h]

theorem length_dictInsert_none (k : String) (v : Entry) (reg : List (String × Entry))
    (h : dictGet k reg = none) : (dictInsert k v reg).length = reg.length + 1 := by
  induction reg with
  | nil => simp [dictInsert]
  | cons p rest ih =>
    obtain ⟨k', v'⟩ := p
    by_cases h0 : k' = k
    · simp [dictGet, h0] at h
    · simp only [dictGet, if_neg h0] at h
      simp [dictInsert, if_neg h0, ih h]

theorem length_dictInsert_le (k : String) (v : Entry) (reg : List (String × Entry)) :
    (dictInsert k v reg).length ≤ reg.length + 1 := by
  cases h : dictGet k reg with
  | none => simp [length_dictInsert_none k v reg h]
  | some e =>
    have := length_dictInsert_mem k v reg (by simp [h])
    omega

theorem dictGet_remove_self (k : String) (reg : List (String × Entry)) :
    dictGet k (dictRemove k reg) = none := by
  induction reg with
  | nil => simp [dictRemove, dictGet]
  | cons p rest ih =>
    obtain ⟨k', v'⟩ := p
    by_cases h0 : k' = k
    · simpa [dictRemove, h0] using ih
    · simpa [dictRemove, dictGet, h0] using ih

theorem store_valid_locked_pending (r : ProvResult) (now : Nat) (s : PoolState) :
    (store_valid_locked r now s).2.pending_creates = s.pending_creates := by
  unfold store_valid_locked
  split <;> rfl

theorem store_valid_locked_target (r : ProvResult) (now : Nat) (s : PoolState) :
    (store_valid_locked r now s).2.target_size = s.target_size := by
  unfold store_valid_locked
  split <;> rfl

theorem store_valid_locked_task_queue (r : ProvResult) (now : Nat) (s : PoolState) :
    (store_valid_locked r now s).2.task_queue = s.task_queue := by
  unfold store_valid_locked
  split <;> rfl

theorem store_valid_locked_length_le (r : ProvResult) (now : Nat) (s : PoolState) :
    (store_valid_locked r now s).2.registry.length ≤ s.registry.length + 1 := by
  unfold store_valid_locked
  split
  · dsimp only
    omega
  · exact length_dictInsert_le _ _ _

theorem store_valid_locked_eq (r : ProvResult) (now : Nat) (s : PoolState)
    (hname : r.container_name ≠ "") :
    store_valid_locked r now s =
      (some (Entry.ofResult r now),
        { s with
          registry := dictInsert r.container_name (Entry.ofResult r now) s.registry
          valid_queue := s.valid_queue.erase r.container_name ++ [r.container_name]
          valid_set := insert r.container_name s.valid_set
          needs_restart := s.needs_restart.erase r.container_name
          pending_repairs := s.pending_repairs.erase r.container_name
          notify_count := s.notify_count + 1 }) := by
  unfold store_valid_locked
  rw [if_neg hname]

theorem dec_pending_eq (s : PoolState) :
    dec_pending s = { s with pending_creates := s.pending_creates - 1 } := by
  obtain ⟨t, m, reg, vq, vs, pr, pc, tq, st, sw, nr, w, nc⟩ := s
  unfold dec_pending
  dsimp only
  split
  · rfl
  · rename_i h
    have h0 : pc = 0 := by omega
    subst h0
    rfl

theorem direct_create_pending (prov : CallResult) (now : Nat) (s : PoolState) :
    (direct_create prov now s).2.pending_creates = s.pending_creates := by
  cases prov with
  | exn m => rfl
  | ret r =>
    simp only [direct_create]
    split
    · exact store_valid_locked_pending r now s
    · rfl

theorem direct_create_target (prov : CallResult) (now : Nat) (s : PoolState) :
    (direct_create prov now s).2.target_size = s.target_size := by
  cases prov with
  | exn m => rfl
  | ret r =>
    simp only [direct_create]
    split
    · exact store_valid_locked_target r now s
    · rfl

theorem direct_create_length_le (prov : CallResult) (now : Nat) (s : PoolState) :
    (direct_create prov now s).2.registry.length ≤ s.registry.length + 1 := by
  cases prov with
  | exn m => simp [direct_create]
  | ret r =>
    simp only [direct_create]
    split
    · exact store_valid_locked_length_le r now s
    · simp

theorem handle_create_task_fail_eq (attempts : Int) (s : PoolState) :
    handle_create_task_fail attempts s =
      { s with task_queue := s.task_queue ++
          [PTask.create (if (s.max_repair_attempts : Int) ≤ attempts + 1 then 0
            else attempts + 1)] } := by
  unfold handle_create_task_fail
  by_cases hc : (s.max_repair_attempts : Int) ≤ attempts + 1
  · rw [if_pos hc, if_pos hc]
    norm_num
  · rw [if_neg hc, if_neg hc]

/-- C8 counterexample: with `w1` present in `valid_queue`, marking it
invalid does not leave `valid_queue` unchanged — `_mark_invalid_locked`
eagerly removes the name from the queue. -/
theorem mark_invalid_removes_from_queue_cex :
    "w1" ∈ poolC8.valid_queue ∧
    (mark_invalid_locked "w1" 0 poolC8).valid_queue ≠ poolC8.valid_queue := by
  decide

/-- C8 (amended): when the record exists, invalidation sets the record's
`state` to `"invalid"` and refreshes `last_updated`, removes the name from
`valid_set`, and also eagerly removes the first occurrence of the name
from `valid_queue`; every other component of the pool state (other
registry entries, registry size, `needs_restart`, `pending_repairs`,
`pending_creates`, `task_queue`) is untouched. -/
theorem mark_invalid_locked_spec (name : String) (now : Nat) (s : PoolState) (e : Entry)
    (h : dictGet name s.registry = some e) :
    dictGet name (mark_invalid_locked name now s).registry =
      some { e with state := "invalid", last_updated := now } ∧
    (∀ m, m ≠ name →
      dictGet m (mark_invalid_locked name now s).registry = dictGet m s.registry) ∧
    (mark_invalid_locked name now s).registry.length = s.registry.length ∧
    (mark_invalid_locked name now s).valid_set = s.valid_set.erase name ∧
    (mark_invalid_locked name now s).valid_queue = s.valid_queue.erase name ∧
    (mark_invalid_locked name now s).needs_restart = s.needs_restart ∧
    (mark_invalid_locked name now s).pending_repairs = s.pending_repairs ∧
    (mark_invalid_locked name now s).pending_creates = s.pending_creates ∧
    (mark_invalid_locked name now s).task_queue = s.task_queue := by
  unfold mark_invalid_locked
  rw [h]
  refine ⟨dictGet_insert_self _ _ _, fun m hm => dictGet_insert_ne _ _ _ _ hm, ?_,
    rfl, rfl, rfl, rfl, rfl, rfl⟩
  exact length_dictInsert_mem _ _ _ (by simp [h])

/-- Witness for the amended C8 theorem at the concrete pool `poolC8`. -/
theorem mark_invalid_locked_spec_witness :
    dictGet "w1" poolC8.registry = some (exEntry "w1" "valid") ∧
    (mark_invalid_locked "w1" 7 poolC8).valid_set = poolC8.valid_set.erase "w1" ∧
    (mark_invalid_locked "w1" 7 poolC8).valid_queue = poolC8.valid_queue.erase "w1" ∧
    (mark_invalid_locked "w1" 7 poolC8).needs_restart = poolC8.needs_restart :=
  ⟨by decide,
    (mark_invalid_locked_spec "w1" 7 poolC8 (exEntry "w1" "valid") (by decide)).2.2.2.1,
    (mark_invalid_locked_spec "w1" 7 poolC8 (exEntry "w1" "valid") (by decide)).2.2.2.2.1,
    (mark_invalid_locked_spec "w1" 7 poolC8 (exEntry "w1" "valid") (by decide)).2.2.2.2.2.1⟩

/-- C4 counterexample: a record whose `container_name` is falsy is dropped
by `_store_valid_locked` (`return {}`), so after the store its name is
neither in the registry with state `valid`, nor in `valid_set`, nor at the
tail of `valid_queue` — contrary to the unconditional claim. -/
theorem store_valid_blank_name_cex :
    "" ∉ (store_valid_locked blankResult 0 emptyPool).2.valid_set ∧
    dictGet "" (store_valid_locked blankResult 0 emptyPool).2.registry = none ∧
    (store_valid_locked blankResult 0 emptyPool).2.valid_queue = [] := by
  decide

/-- C4 (amended): for a record with a non-falsy name `n` that occurs at
most once in `valid_queue` (as in every reachable state), after
`_store_valid_locked` the registry holds the record in state `"valid"`,
`n` is in `valid_set`, `n` is in neither `needs_restart` nor
`pending_repairs`, waiters are notified, and `valid_queue` contains `n`
exactly once, at the tail, with the prior occurrence removed. In general
only the first prior occurrence is removed. -/
theorem store_valid_locked_spec (r : ProvResult) (now : Nat) (s : PoolState)
    (hname : r.container_name ≠ "")
    (hcount : s.valid_queue.count r.container_name ≤ 1) :
    dictGet r.container_name (store_valid_locked r now s).2.registry =
      some (Entry.ofResult r now) ∧
    (Entry.ofResult r now).state = "valid" ∧
    r.container_name ∈ (store_valid_locked r now s).2.valid_set ∧
    r.container_name ∉ (store_valid_locked r now s).2.needs_restart ∧
    r.container_name ∉ (store_valid_locked r now s).2.pending_repairs ∧
    (store_valid_locked r now s).2.notify_count = s.notify_count + 1 ∧
    (store_valid_locked r now s).2.valid_queue =
      s.valid_queue.erase r.container_name ++ [r.container_name] ∧
    (store_valid_locked r now s).2.valid_queue.count r.container_name = 1 ∧
    (store_valid_locked r now s).2.valid_queue.getLast? = some r.container_name := by
  rw [store_valid_locked_eq r now s hname]
  refine ⟨dictGet_insert_self _ _ _, rfl, Finset.mem_insert_self _ _,
    Finset.not_mem_erase _ _, Finset.not_mem_erase _ _, rfl, rfl, ?_,
    List.getLast?_concat _⟩
  show (s.valid_queue.erase r.container_name ++ [r.container_name]).count
      r.container_name = 1
  rw [List.count_append, List.count_erase_self, List.count_singleton]
  simp only [beq_self_eq_true, if_true]
  omega

/-- Witness for the amended C4 theorem: storing `w2` into the two-worker
pool whose queue is `[A, B]`. -/
theorem store_valid_locked_spec_witness :
    (exResult "w2").container_name ≠ "" ∧
    poolAB.valid_queue.count (exResult "w2").container_name ≤ 1 ∧
    ((store_valid_locked (exResult "w2") 3 poolAB).2.valid_queue =
        poolAB.valid_queue.erase (exResult "w2").container_name ++
          [(exResult "w2").container_name] ∧
      (store_valid_locked (exResult "w2") 3 poolAB).2.valid_queue.count
        (exResult "w2").container_name = 1) :=
  ⟨by decide, by decide,
    (store_valid_locked_spec (exResult "w2") 3 poolAB (by decide) (by decide)).2.2.2.2.2.2.1,
    (store_valid_locked_spec (exResult "w2") 3 poolAB (by decide) (by decide)).2.2.2.2.2.2.2.1⟩

/-- C1 counterexample: in a pool at `target_size = 1` whose single
registry entry is invalid, the commit bound holds, yet a direct create
(`create_sync` fallback or the initial fill, both of which call
`_direct_create`) stores a fresh worker unconditionally and pushes
`|registry| + pending_creates` above `target_size`. -/
theorem direct_create_breaks_commit_bound_cex :
    commit_bound poolC1 ∧
    ¬ commit_bound (direct_create (.ret (exResult "w2")) 0 poolC1).2 := by
  decide

/-- C1 (amended): the commit bound `|registry| + pending_creates ≤
target_size` is preserved by `_schedule_create` (which increments
`pending_creates` only below capacity) and by the background create task
(which trades a pending create for a registry entry, provided a fresh
successful name is covered by a positive `pending_creates`); direct
creates are the exception shown in the counterexample. -/
theorem commit_bound_preserved (s : PoolState) (prov : CallResult) (now : Nat)
    (attempts : Int) (h : commit_bound s) :
    commit_bound (schedule_create prov now s) ∧
    ((∀ r, prov = CallResult.ret r → r.status = some "ok" → r.container_name ≠ "" →
        dictGet r.container_name s.registry = none → 1 ≤ s.pending_creates) →
      commit_bound (handle_create_task attempts prov now s)) := by
  constructor
  · unfold schedule_create
    by_cases h0 : s.target_size = 0
    · rw [if_pos h0]; exact h
    · rw [if_neg h0]
      by_cases h1 : s.target_size ≤ s.registry.length + s.pending_creates
      · rw [if_pos h1]; exact h
      · rw [if_neg h1]
        by_cases h2 : s.start_worker = true
        · rw [if_pos h2]
          unfold commit_bound at *
          dsimp only
          omega
        · rw [if_neg h2, dec_pending_eq]
          have hp := direct_create_pending prov now
            { s with pending_creates := s.pending_creates + 1 }
          have ht := direct_create_target prov now
            { s with pending_creates := s.pending_creates + 1 }
          have hl := direct_create_length_le prov now
            { s with pending_creates := s.pending_creates + 1 }
          unfold commit_bound at *
          dsimp only at hp ht hl ⊢
          omega
  · intro hp
    cases prov with
    | exn m =>
      show commit_bound (handle_create_task_fail attempts s)
      rw [handle_create_task_fail_eq]
      unfold commit_bound at *
      exact h
    | ret r =>
      by_cases hok : r.status = some "ok"
      · show commit_bound (handle_create_task attempts (.ret r) now s)
        have hred : handle_create_task attempts (.ret r) now s =
            dec_pending (store_valid_locked r now s).2 := by
          simp [handle_create_task, hok]
        rw [hred, dec_pending_eq]
        have hpend := store_valid_locked_pending r now s
        have htgt := store_valid_locked_target r now s
        by_cases hname : r.container_name = ""
        · have hid : store_valid_locked r now s = (none, s) := by
            unfold store_valid_locked
            rw [if_pos hname]
          rw [hid]
          unfold commit_bound at *
          dsimp only
          omega
        · cases hg : dictGet r.container_name s.registry with
          | some e =>
            have hlen : (store_valid_locked r now s).2.registry.length =
                s.registry.length := by
              simp only [store_valid_locked, if_neg hname]
              exact length_dictInsert_mem _ _ _ (by simp [hg])
            unfold commit_bound at *
            dsimp only
            omega
          | none =>
            have hppos := hp r rfl hok hname hg
            have hlen : (store_valid_locked r now s).2.registry.length =
                s.registry.length + 1 := by
              simp only [store_valid_locked, if_neg hname]
              exact length_dictInsert_none _ _ _ hg
            unfold commit_bound at *
            dsimp only
            omega
      · have hred : handle_create_task attempts (.ret r) now s =
            handle_create_task_fail attempts s := by
          simp [handle_create_task, hok]
        rw [hred, handle_create_task_fail_eq]
        unfold commit_bound at *
        exact h

/-- Witness for the amended C1 theorem: scheduling and a successful
background create on the two-worker pool with one pending create. -/
theorem commit_bound_preserved_witness :
    commit_bound { poolAB with target_size := 3, pending_creates := 1 } ∧
    commit_bound (schedule_create (.ret (exResult "w9")) 2
      { poolAB with target_size := 3, pending_creates := 1 }) ∧
    commit_bound (handle_create_task 0 (.ret (exResult "w9")) 2
      { poolAB with target_size := 3, pending_creates := 1 }) :=
  ⟨by decide,
    (commit_bound_preserved { poolAB with target_size := 3, pending_creates := 1 }
      (.ret (exResult "w9")) 2 0 (by decide)).1,
    (commit_bound_preserved { poolAB with target_size := 3, pending_creates := 1 }
      (.ret (exResult "w9")) 2 0 (by decide)).2 (fun r _ _ _ _ => by decide)⟩

/-- C7: create tasks are never abandoned. On failure the task is
re-enqueued: with counter `attempts + 1` when that stays below
`max_repair_attempts`, and with counter `0` otherwise (the source resets
the counter to `-1` first). `pending_creates` and the registry are then
unchanged; only on success is `pending_creates` decremented, after the
result is stored valid. -/
theorem handle_create_task_spec (attempts : Int) (prov : CallResult) (now : Nat)
    (s : PoolState) :
    (∀ r, prov = CallResult.ret r → r.status = some "ok" →
      handle_create_task attempts prov now s =
        { (store_valid_locked r now s).2 with
            pending_creates := s.pending_creates - 1 }) ∧
    (prov.isOk = false →
      handle_create_task attempts prov now s =
        { s with task_queue := s.task_queue ++
            [PTask.create
              (if (s.max_repair_attempts : Int) ≤ attempts + 1 then 0
                else attempts + 1)] }) := by
  constructor
  · rintro r rfl hok
    have hred : handle_create_task attempts (.ret r) now s =
        dec_pending (store_valid_locked r now s).2 := by
      simp [handle_create_task, hok]
    rw [hred, dec_pending_eq, store_valid_locked_pending]
  · intro hfail
    cases prov with
    | ret r =>
      have hok : ¬ r.status = some "ok" := by
        simpa [CallResult.isOk] using hfail
      have hred : handle_create_task attempts (.ret r) now s =
          handle_create_task_fail attempts s := by
        simp [handle_create_task, hok]
      rw [hred, handle_create_task_fail_eq]
    | exn m =>
      show handle_create_task_fail attempts s = _
      rw [handle_create_task_fail_eq]

/-- Witness for C7 at a concrete failing create task. -/
theorem handle_create_task_spec_witness :
    (CallResult.exn "boom").isOk = false ∧
    handle_create_task 2 (.exn "boom") 4 poolAB =
      { poolAB with task_queue := poolAB.task_queue ++
          [PTask.create
            (if (poolAB.max_repair_attempts : Int) ≤ 2 + 1 then 0 else 2 + 1)] } :=
  ⟨by decide, (handle_create_task_spec 2 (.exn "boom") 4 poolAB).2 (by decide)⟩

theorem schedule_create_worker_cases (prov : CallResult) (now : Nat) (s : PoolState)
    (hw : s.start_worker = true) :
    schedule_create prov now s = s ∨
    schedule_create prov now s =
      { s with pending_creates := s.pending_creates + 1
               task_queue := s.task_queue ++ [PTask.create 0] } := by
  unfold schedule_create
  by_cases h0 : s.target_size = 0
  · rw [if_pos h0]; exact .inl rfl
  · rw [if_neg h0]
    by_cases h1 : s.target_size ≤ s.registry.length + s.pending_creates
    · rw [if_pos h1]; exact .inl rfl
    · rw [if_neg h1, if_pos hw]; exact .inr rfl

theorem schedule_create_worker_enqueue (prov : CallResult) (now : Nat) (s : PoolState)
    (hw : s.start_worker = true) (h0 : s.target_size ≠ 0)
    (hcap : s.registry.length + s.pending_creates < s.target_size) :
    schedule_create prov now s =
      { s with pending_creates := s.pending_creates + 1
               task_queue := s.task_queue ++ [PTask.create 0] } := by
  unfold schedule_create
  rw [if_neg h0, if_neg (by omega), if_pos hw]

theorem schedule_create_worker_frame (prov : CallResult) (now : Nat) (s : PoolState)
    (hw : s.start_worker = true) :
    (schedule_create prov now s).registry = s.registry ∧
    (schedule_create prov now s).valid_set = s.valid_set ∧
    (schedule_create prov now s).valid_queue = s.valid_queue ∧
    (schedule_create prov now s).pending_repairs = s.pending_repairs ∧
    (schedule_create prov now s).needs_restart = s.needs_restart := by
  rcases schedule_create_worker_cases prov now s hw with h | h <;> rw [h] <;>
    exact ⟨rfl, rfl, rfl, rfl, rfl⟩

/-- C6: the repair task handler. On success it stores the result valid and
discards the name from `pending_repairs`. On a final failure
(`attempts + 1 ≥ max_repair_attempts`) it issues a best-effort delete
whose outcome is ignored, removes the name from the registry, `valid_set`,
`valid_queue`, `pending_repairs` and `needs_restart`, and runs
`_schedule_create` (which enqueues a create task when below capacity). On
a non-final failure it re-enqueues the repair with `attempts + 1`. The
hypotheses require a non-falsy name occurring at most once in the queue,
as holds in every reachable state. -/
theorem handle_repair_task_spec (name : String) (attempts : Int)
    (rres dres provC : CallResult) (now : Nat) (s : PoolState)
    (hname : name ≠ "") (hq : s.valid_queue.count name ≤ 1) :
    (∀ r, rres = CallResult.ret r → r.status = some "ok" →
      handle_repair_task name attempts rres dres provC now s =
        ({ (store_valid_locked r now s).2 with
            pending_repairs :=
              (store_valid_locked r now s).2.pending_repairs.erase name },
          [ExtCall.restartAndCheck name]) ∧
      name ∉ (handle_repair_task name attempts rres dres provC now s).1.pending_repairs) ∧
    (rres.isOk = false → (s.max_repair_attempts : Int) ≤ attempts + 1 →
      (handle_repair_task name attempts rres dres provC now s).1 =
        schedule_create provC now
          { (remove_container_locked name s).2 with
              pending_repairs :=
                (remove_container_locked name s).2.pending_repairs.erase name } ∧
      (handle_repair_task name attempts rres dres provC now s).2 =
        [ExtCall.restartAndCheck name, ExtCall.deleteProxy name] ∧
      (s.start_worker = true →
        dictGet name (handle_repair_task name attempts rres dres provC now s).1.registry
            = none ∧
        name ∉ (handle_repair_task name attempts rres dres provC now s).1.valid_set ∧
        name ∉ (handle_repair_task name attempts rres dres provC now s).1.valid_queue ∧
        name ∉ (handle_repair_task name attempts rres dres provC now s).1.pending_repairs ∧
        name ∉ (handle_repair_task name attempts rres dres provC now s).1.needs_restart)) ∧
    (rres.isOk = false → attempts + 1 < (s.max_repair_attempts : Int) →
      handle_repair_task name attempts rres dres provC now s =
        ({ s with task_queue := s.task_queue ++ [PTask.repair name (attempts + 1)] },
          [ExtCall.restartAndCheck name])) ∧
    (∀ dres', handle_repair_task name attempts rres dres provC now s =
      handle_repair_task name attempts rres dres' provC now s) := by
  have hfail_red : ∀ (h : rres.isOk = false),
      handle_repair_task name attempts rres dres provC now s =
        handle_repair_task_fail name attempts dres provC now s := by
    intro hf
    cases rres with
    | ret r =>
      have hok : ¬ r.status = some "ok" := by simpa [CallResult.isOk] using hf
      simp [handle_repair_task, hname, hok]
    | exn m => simp [handle_repair_task, hname]
  refine ⟨?_, ?_, ?_, ?_⟩
  · rintro r rfl hok
    have hred : handle_repair_task name attempts (.ret r) dres provC now s =
        ({ (store_valid_locked r now s).2 with
            pending_repairs :=
              (store_valid_locked r now s).2.pending_repairs.erase name },
          [ExtCall.restartAndCheck name]) := by
      simp [handle_repair_task, hname, hok]
    exact ⟨hred, by rw [hred]; exact Finset.not_mem_erase _ _⟩
  · intro hf hmax
    rw [hfail_red hf]
    have hexh : handle_repair_task_fail name attempts dres provC now s =
        (schedule_create provC now
          { (remove_container_locked name s).2 with
              pending_repairs :=
                (remove_container_locked name s).2.pending_repairs.erase name },
          [ExtCall.restartAndCheck name, ExtCall.deleteProxy name]) := by
      unfold handle_repair_task_fail
      rw [if_pos hmax]
    rw [hexh]
    refine ⟨rfl, rfl, ?_⟩
    intro hw
    have hw2 : ({ (remove_container_locked name s).2 with
        pending_repairs :=
          (remove_container_locked name s).2.pending_repairs.erase name } :
          PoolState).start_worker = true := hw
    have hfr := schedule_create_worker_frame provC now
      { (remove_container_locked name s).2 with
          pending_repairs :=
            (remove_container_locked name s).2.pending_repairs.erase name } hw2
    refine ⟨?_, ?_, ?_, ?_, ?_⟩
    · rw [hfr.1]
      exact dictGet_remove_self _ _
    · rw [hfr.2.1]
      exact Finset.not_mem_erase _ _
    · rw [hfr.2.2.1]
      have h0 : (s.valid_queue.erase name).count name = 0 := by
        rw [List.count_erase_self]; omega
      exact List.count_eq_zero.mp h0
    · rw [hfr.2.2.2.1]
      exact Finset.not_mem_erase _ _
    · rw [hfr.2.2.2.2]
      exact Finset.not_mem_erase _ _
  · intro hf hlt
    rw [hfail_red hf]
    unfold handle_repair_task_fail
    rw [if_neg (by omega)]
  · intro dres'
    cases rres with
    | ret r =>
      by_cases hok : r.status = some "ok"
      · simp [handle_repair_task, hname, hok]
      · simp [handle_repair_task, hname, hok, handle_repair_task_fail]
    | exn m => simp [handle_repair_task, hname, handle_repair_task_fail]

/-- Witness for C6: a final repair failure for worker `A` in the
two-worker pool. -/
theorem handle_repair_task_spec_witness :
    ("A" : String) ≠ "" ∧ poolAB.valid_queue.count "A" ≤ 1 ∧
    (CallResult.exn "down").isOk = false ∧
    ((poolAB.max_repair_attempts : Int) ≤ 2 + 1) ∧
    ((handle_repair_task "A" 2 (.exn "down") (.exn "gone") (.exn "no") 5 poolAB).2 =
      [ExtCall.restartAndCheck "A", ExtCall.deleteProxy "A"] ∧
      (poolAB.start_worker = true →
        dictGet "A" (handle_repair_task "A" 2 (.exn "down") (.exn "gone") (.exn "no")
            5 poolAB).1.registry = none ∧
        "A" ∉ (handle_repair_task "A" 2 (.exn "down") (.exn "gone") (.exn "no")
            5 poolAB).1.valid_set ∧
        "A" ∉ (handle_repair_task "A" 2 (.exn "down") (.exn "gone") (.exn "no")
            5 poolAB).1.valid_queue ∧
        "A" ∉ (handle_repair_task "A" 2 (.exn "down") (.exn "gone") (.exn "no")
            5 poolAB).1.pending_repairs ∧
        "A" ∉ (handle_repair_task "A" 2 (.exn "down") (.exn "gone") (.exn "no")
            5 poolAB).1.needs_restart)) :=
  ⟨by decide, by decide, by decide, by decide,
    ((handle_repair_task_spec "A" 2 (.exn "down") (.exn "gone") (.exn "no") 5 poolAB
        (by decide) (by decide)).2.1 (by decide) (by decide)).2⟩

theorem get_valid_loop_vset_subset (reg : List (String × Entry)) :
    ∀ (q : List String) (vset : Finset String),
      (get_valid_loop reg vset q).2.2 ⊆ vset := by
  intro q
  induction q with
  | nil =>
    intro vset
    simp [get_valid_loop]
  | cons n rest ih =>
    intro vset
    by_cases hn : n ∈ vset
    · cases hg : dictGet n reg with
      | some e =>
        by_cases hs : e.state = "valid"
        · simp [get_valid_loop, hn, hg, hs]
        · simp only [get_valid_loop, if_pos hn, hg, if_neg hs]
          exact (ih (vset.erase n)).trans (Finset.erase_subset _ _)
      | none =>
        simp only [get_valid_loop, if_pos hn, hg]
        exact (ih (vset.erase n)).trans (Finset.erase_subset _ _)
    · simp only [get_valid_loop, if_neg hn]
      exact ih vset

theorem get_valid_preserves_flag (t : PoolState) (name : String) (e : Entry)
    (hreg : dictGet name t.registry = some e) (hvs : name ∉ t.valid_set)
    (hnr : name ∈ t.needs_restart) :
    dictGet name (get_valid t).2.registry = some e ∧
    name ∉ (get_valid t).2.valid_set ∧
    name ∈ (get_valid t).2.needs_restart :=
  ⟨hreg, fun hm => hvs (get_valid_loop_vset_subset t.registry t.valid_queue t.valid_set hm),
    hnr⟩

theorem create_sync_preserves_flag (prov : CallResult) (now : Nat) (t : PoolState)
    (name : String) (e : Entry)
    (hfresh : ∀ r, prov = CallResult.ret r → r.container_name ≠ name)
    (hreg : dictGet name t.registry = some e)
    (hvs : name ∉ t.valid_set) (hnr : name ∈ t.needs_restart) :
    dictGet name (create_sync prov now t).2.registry = some e ∧
    name ∉ (create_sync prov now t).2.valid_set ∧
    name ∈ (create_sync prov now t).2.needs_restart := by
  cases prov with
  | exn m => exact ⟨hreg, hvs, hnr⟩
  | ret r =>
    by_cases hok : r.status = some "ok"
    · by_cases hblank : r.container_name = ""
      · have hid : store_valid_locked r now t = (none, t) := by
          unfold store_valid_locked
          rw [if_pos hblank]
        have : create_sync (.ret r) now t = (none, t) := by
          simp [create_sync, direct_create, hok, hid]
        rw [this]
        exact ⟨hreg, hvs, hnr⟩
      · have hne : r.container_name ≠ name := hfresh r rfl
        have hne' : name ≠ r.container_name := fun hh => hne hh.symm
        have hc2 : (create_sync (.ret r) now t).2 = (store_valid_locked r now t).2 := by
          simp [create_sync, direct_create, hok]
        rw [hc2, store_valid_locked_eq r now t hblank]
        refine ⟨?_, ?_, ?_⟩
        · show dictGet name (dictInsert r.container_name (Entry.ofResult r now)
            t.registry) = some e
          rw [dictGet_insert_ne name r.container_name _ _ hne']
          exact hreg
        · show name ∉ insert r.container_name t.valid_set
          intro hm
          rcases Finset.mem_insert.mp hm with h | h
          · exact hne' h
          · exact hvs h
        · show name ∈ t.needs_restart.erase r.container_name
          exact Finset.mem_erase.mpr ⟨hne', hnr⟩
    · have : create_sync (.ret r) now t = (none, t) := by
        simp [create_sync, direct_create, hok]
      rw [this]
      exact ⟨hreg, hvs, hnr⟩

/-- C3: `mark_for_restart` (= `schedule_restart`). It fails with
`KeyError` exactly when the name is not in the registry (leaving the state
unchanged); otherwise, whatever it returns, the worker's record is
`"invalid"`, the name is out of `valid_set` and in `needs_restart`, and
the replacement is the result of `get_valid` if that is non-none, else of
the synchronous create, else the call fails with `no_available_container`
with the flagging still in place. The freshness hypothesis reflects the
provisioner contract that each call creates a new worker. -/
theorem mark_for_restart_spec (name : String) (prov : CallResult) (now : Nat)
    (s : PoolState)
    (hfresh : ∀ r, prov = CallResult.ret r → r.container_name ≠ name) :
    (dictGet name s.registry = none →
      mark_for_restart name prov now s = (.error (.keyError name), s)) ∧
    (∀ e, dictGet name s.registry = some e →
      dictGet name (mark_for_restart name prov now s).2.registry =
        some { e with state := "invalid", last_updated := now } ∧
      name ∉ (mark_for_restart name prov now s).2.valid_set ∧
      name ∈ (mark_for_restart name prov now s).2.needs_restart ∧
      (∀ s1, flag_container_for_restart name now s = some s1 →
        (∀ rec, (get_valid s1).1 = some rec →
          mark_for_restart name prov now s = (.ok rec, (get_valid s1).2)) ∧
        ((get_valid s1).1 = none →
          (∀ c, (create_sync prov now (get_valid s1).2).1 = some c →
            mark_for_restart name prov now s =
              (.ok c, (create_sync prov now (get_valid s1).2).2)) ∧
          ((create_sync prov now (get_valid s1).2).1 = none →
            mark_for_restart name prov now s =
              (.error .noAvailableContainer,
                (create_sync prov now (get_valid s1).2).2))))) := by
  constructor
  · intro hg
    have hflag : flag_container_for_restart name now s = none := by
      unfold flag_container_for_restart
      rw [hg]
    unfold mark_for_restart
    rw [hflag]
  · intro e hg
    have hmi : mark_invalid_locked name now s =
        { s with
          registry := dictInsert name { e with state := "invalid", last_updated := now }
            s.registry
          valid_set := s.valid_set.erase name
          valid_queue := s.valid_queue.erase name } := by
      unfold mark_invalid_locked
      rw [hg]
    have hflag : flag_container_for_restart name now s =
        some { s with
          registry := dictInsert name { e with state := "invalid", last_updated := now }
            s.registry
          valid_set := s.valid_set.erase name
          valid_queue := s.valid_queue.erase name
          needs_restart := insert name s.needs_restart } := by
      unfold flag_container_for_restart
      rw [hg, hmi]
    have hred : mark_for_restart name prov now s =
        (match (get_valid { s with
          registry := dictInsert name { e with state := "invalid", last_updated := now }
            s.registry
          valid_set := s.valid_set.erase name
          valid_queue := s.valid_queue.erase name
          needs_restart := insert name s.needs_restart }).1 with
        | some r => (.ok r, (get_valid { s with
            registry := dictInsert name { e with state := "invalid", last_updated := now }
              s.registry
            valid_set := s.valid_set.erase name
            valid_queue := s.valid_queue.erase name
            needs_restart := insert name s.needs_restart }).2)
        | none =>
          match (create_sync prov now (get_valid { s with
              registry := dictInsert name
                { e with state := "invalid", last_updated := now } s.registry
              valid_set := s.valid_set.erase name
              valid_queue := s.valid_queue.erase name
              needs_restart := insert name s.needs_restart }).2).1 with
          | some r => (.ok r, (create_sync prov now (get_valid { s with
              registry := dictInsert name
                { e with state := "invalid", last_updated := now } s.registry
              valid_set := s.valid_set.erase name
              valid_queue := s.valid_queue.erase name
              needs_restart := insert name s.needs_restart }).2).2)
          | none => (.error .noAvailableContainer, (create_sync prov now (get_valid
              { s with
                registry := dictInsert name
                  { e with state := "invalid", last_updated := now } s.registry
                valid_set := s.valid_set.erase name
                valid_queue := s.valid_queue.erase name
                needs_restart := insert name s.needs_restart }).2).2)) := by
      unfold mark_for_restart
      rw [hflag]
    have hg1 := get_valid_preserves_flag
      { s with
        registry := dictInsert name { e with state := "invalid", last_updated := now }
          s.registry
        valid_set := s.valid_set.erase name
        valid_queue := s.valid_queue.erase name
        needs_restart := insert name s.needs_restart }
      name { e with state := "invalid", last_updated := now }
      (dictGet_insert_self _ _ _) (Finset.not_mem_erase _ _)
      (Finset.mem_insert_self _ _)
    have hc1 := create_sync_preserves_flag prov now
      (get_valid { s with
        registry := dictInsert name { e with state := "invalid", last_updated := now }
          s.registry
        valid_set := s.valid_set.erase name
        valid_queue := s.valid_queue.erase name
        needs_restart := insert name s.needs_restart }).2
      name { e with state := "invalid", last_updated := now }
      hfresh hg1.1 hg1.2.1 hg1.2.2
    refine ⟨?_, ?_, ?_, ?_⟩
    · rw [hred]
      cases hgv : (get_valid { s with
          registry := dictInsert name { e with state := "invalid", last_updated := now }
            s.registry
          valid_set := s.valid_set.erase name
          valid_queue := s.valid_queue.erase name
          needs_restart := insert name s.needs_restart }).1 with
      | some rec => simpa [hgv] using hg1.1
      | none =>
        cases hcv : (create_sync prov now (get_valid { s with
            registry := dictInsert name
              { e with state := "invalid", last_updated := now } s.registry
            valid_set := s.valid_set.erase name
            valid_queue := s.valid_queue.erase name
            needs_restart := insert name s.needs_restart }).2).1 with
        | some c => simpa [hgv, hcv] using hc1.1
        | none => simpa [hgv, hcv] using hc1.1
    · rw [hred]
      cases hgv : (get_valid { s with
          registry := dictInsert name { e with state := "invalid", last_updated := now }
            s.registry
          valid_set := s.valid_set.erase name
          valid_queue := s.valid_queue.erase name
          needs_restart := insert name s.needs_restart }).1 with
      | some rec => simpa [hgv] using hg1.2.1
      | none =>
        cases hcv : (create_sync prov now (get_valid { s with
            registry := dictInsert name
              { e with state := "invalid", last_updated := now } s.registry
            valid_set := s.valid_set.erase name
            valid_queue := s.valid_queue.erase name
            needs_restart := insert name s.needs_restart }).2).1 with
        | some c => simpa [hgv, hcv] using hc1.2.1
        | none => simpa [hgv, hcv] using hc1.2.1
    · rw [hred]
      cases hgv : (get_valid { s with
          registry := dictInsert name { e with state := "invalid", last_updated := now }
            s.registry
          valid_set := s.valid_set.erase name
          valid_queue := s.valid_queue.erase name
          needs_restart := insert name s.needs_restart }).1 with
      | some rec => simpa [hgv] using hg1.2.2
      | none =>
        cases hcv : (create_sync prov now (get_valid { s with
            registry := dictInsert name
              { e with state := "invalid", last_updated := now } s.registry
            valid_set := s.valid_set.erase name
            valid_queue := s.valid_queue.erase name
            needs_restart := insert name s.needs_restart }).2).1 with
        | some c => simpa [hgv, hcv] using hc1.2.2
        | none => simpa [hgv, hcv] using hc1.2.2
    · intro s1 hs1
      rw [hflag] at hs1
      have hs1' := (Option.some_inj.mp hs1).symm
      subst hs1'
      constructor
      · intro rec hrec
        rw [hred, hrec]
      · intro hnone
        constructor
        · intro c hc
          rw [hred, hnone, hc]
        · intro hcn
          rw [hred, hnone, hcn]

/-- Witness for C3: restarting worker `A` in the two-worker pool; the
provisioner oracle would create a fresh `w9`. -/
theorem mark_for_restart_spec_witness :
    dictGet "A" poolAB.registry = some (exEntry "A" "valid") ∧
    (dictGet "A" (mark_for_restart "A" (.ret (exResult "w9")) 6 poolAB).2.registry =
      some { exEntry "A" "valid" with state := "invalid", last_updated := 6 } ∧
     "A" ∉ (mark_for_restart "A" (.ret (exResult "w9")) 6 poolAB).2.valid_set ∧
     "A" ∈ (mark_for_restart "A" (.ret (exResult "w9")) 6 poolAB).2.needs_restart) :=
  ⟨by decide,
    ((mark_for_restart_spec "A" (.ret (exResult "w9")) 6 poolAB
        (by intro r hr; cases hr; decide)).2 (exEntry "A" "valid") (by decide)).1,
    ((mark_for_restart_spec "A" (.ret (exResult "w9")) 6 poolAB
        (by intro r hr; cases hr; decide)).2 (exEntry "A" "valid") (by decide)).2.1,
    ((mark_for_restart_spec "A" (.ret (exResult "w9")) 6 poolAB
        (by intro r hr; cases hr; decide)).2 (exEntry "A" "valid") (by decide)).2.2.1⟩

theorem get_valid_step (s : PoolState) (n : String) (rest : List String)
    (hq : s.valid_queue = n :: rest) (hn : n ∈ s.valid_set) (e : Entry)
    (hg : dictGet n s.registry = some e) (hs : e.state = "valid") :
    get_valid s = (some (sanitize_entry e), { s with valid_queue := rest ++ [n] }) := by
  unfold get_valid
  rw [hq]
  simp only [get_valid_loop, if_pos hn, hg, if_pos hs]
  rfl

theorem acquire_seq_rotate (k : Nat) :
    ∀ (s : PoolState), s.valid_queue.Nodup →
      (∀ n ∈ s.valid_queue, goodName s.registry s.valid_set n) →
      k ≤ s.valid_queue.length →
      acquire_seq k s =
        ((s.valid_queue.take k).map
            (fun n => (dictGet n s.registry).map sanitize_entry),
          { s with valid_queue := s.valid_queue.drop k ++ s.valid_queue.take k }) := by
  induction k with
  | zero =>
    intro s hnd hgood hk
    simp [acquire_seq]
  | succ k ih =>
    intro s hnd hgood hk
    cases hq : s.valid_queue with
    | nil =>
      rw [hq] at hk
      simp at hk
    | cons n rest =>
      obtain ⟨hnv, hmap⟩ := hgood n (by rw [hq]; exact List.mem_cons_self _ _)
      cases hge : dictGet n s.registry with
      | none => rw [hge] at hmap; simp at hmap
      | some e =>
        have hst : e.state = "valid" := by
          rw [hge] at hmap
          simpa using hmap
        have hstep := get_valid_step s n rest hq hnv e hge hst
        have hlen : k ≤ rest.length := by
          rw [hq] at hk
          simpa using hk
        have hih := ih { s with valid_queue := rest ++ [n] }
          (by
            dsimp only
            rw [hq] at hnd
            exact List.nodup_append_comm.mpr (by simpa using hnd))
          (by
            intro m hm
            dsimp only at hm ⊢
            have hm' : m ∈ s.valid_queue := by
              rw [hq]
              rcases List.mem_append.mp hm with h | h
              · exact List.mem_cons_of_mem _ h
              · simp at h
                subst h
                exact List.mem_cons_self _ _
            exact hgood m hm')
          (by
            dsimp only
            rw [List.length_append]
            omega)
        have hred : acquire_seq (k + 1) s =
            ((get_valid s).1 :: (acquire_seq k (get_valid s).2).1,
              (acquire_seq k (get_valid s).2).2) := rfl
        rw [hred, hstep]
        dsimp only
        rw [hih]
        simp only [Prod.mk.injEq]
        constructor
        · dsimp only
          rw [List.take_append_of_le_length hlen]
          simp [hge]
        · dsimp only
          have hqe : (rest ++ [n]).drop k ++ (rest ++ [n]).take k =
              (n :: rest).drop (k + 1) ++ (n :: rest).take (k + 1) := by
            rw [List.drop_append_of_le_length hlen,
              List.take_append_of_le_length hlen]
            show rest.drop k ++ [n] ++ rest.take k = rest.drop k ++ (n :: rest.take k)
            rw [List.append_assoc]
            rfl
          rw [hqe]

/-- C9: FIFO round robin. In a pool whose `valid_queue` is duplicate-free
and whose queued names are all valid (two workers `A, B` being the special
case), `k ≤ |queue|` consecutive `get_valid` calls return precisely the
first `k` queued workers in order — all distinct, so no worker repeats
before every valid worker has been handed out — and rotate the queue by
`k`; a full cycle of `|queue|` calls returns every valid worker exactly
once and restores the state exactly. -/
theorem get_valid_round_robin (s : PoolState) (k : Nat)
    (hnd : s.valid_queue.Nodup)
    (hgood : ∀ n ∈ s.valid_queue, goodName s.registry s.valid_set n)
    (hk : k ≤ s.valid_queue.length) :
    (acquire_seq k s).1 =
      (s.valid_queue.take k).map
        (fun n => (dictGet n s.registry).map sanitize_entry) ∧
    (acquire_seq k s).2 =
      { s with valid_queue := s.valid_queue.drop k ++ s.valid_queue.take k } ∧
    (acquire_seq s.valid_queue.length s).1 =
      s.valid_queue.map (fun n => (dictGet n s.registry).map sanitize_entry) ∧
    (acquire_seq s.valid_queue.length s).2 = s := by
  have h1 := acquire_seq_rotate k s hnd hgood hk
  have h2 := acquire_seq_rotate s.valid_queue.length s hnd hgood le_rfl
  rw [List.take_length, List.drop_length, List.nil_append] at h2
  refine ⟨by rw [h1], by rw [h1], by rw [h2], by rw [h2]⟩

/-- Witness for C9: the two-worker pool `[A, B]`, full cycle of two
acquires: `A` then `B`, and the state returns to the start. -/
theorem get_valid_round_robin_witness :
    poolAB.valid_queue.Nodup ∧
    (∀ n ∈ poolAB.valid_queue, goodName poolAB.registry poolAB.valid_set n) ∧
    2 ≤ poolAB.valid_queue.length ∧
    ((acquire_seq 2 poolAB).1 =
      (poolAB.valid_queue.take 2).map
        (fun n => (dictGet n poolAB.registry).map sanitize_entry) ∧
    (acquire_seq poolAB.valid_queue.length poolAB).2 = poolAB) :=
  ⟨by decide, by decide, by decide,
    (get_valid_round_robin poolAB 2 (by decide) (by decide) (by decide)).1,
    (get_valid_round_robin poolAB 2 (by decide) (by decide) (by decide)).2.2.2⟩

theorem get_valid_loop_none (reg : List (String × Entry)) :
    ∀ (q : List String) (vset : Finset String),
      (get_valid_loop reg vset q).1 = none →
      (get_valid_loop reg vset q).2.1 = [] ∧ ∀ n ∈ q, ¬ goodName reg vset n := by
  intro q
  induction q with
  | nil =>
    intro vset h
    exact ⟨rfl, by simp⟩
  | cons n rest ih =>
    intro vset h
    by_cases hn : n ∈ vset
    · cases hg : dictGet n reg with
      | some e =>
        by_cases hs : e.state = "valid"
        · have hred : get_valid_loop reg vset (n :: rest) = (some e, rest ++ [n], vset) := by
            simp [get_valid_loop, hn, hg, hs]
          rw [hred] at h
          exact absurd h (by simp)
        · have hred : get_valid_loop reg vset (n :: rest) =
              get_valid_loop reg (vset.erase n) rest := by
            simp [get_valid_loop, hn, hg, hs]
          rw [hred] at h ⊢
          obtain ⟨hq, hall⟩ := ih (vset.erase n) h
          refine ⟨hq, ?_⟩
          intro m hm hgood
          obtain ⟨hmv, hmap⟩ := hgood
          rcases List.mem_cons.mp hm with rfl | hm'
          · rw [hg] at hmap
            exact hs (by simpa using hmap)
          · by_cases hmn : m = n
            · subst hmn
              rw [hg] at hmap
              exact hs (by simpa using hmap)
            · exact hall m hm' ⟨Finset.mem_erase.mpr ⟨hmn, hmv⟩, hmap⟩
      | none =>
        have hred : get_valid_loop reg vset (n :: rest) =
            get_valid_loop reg (vset.erase n) rest := by
          simp [get_valid_loop, hn, hg]
        rw [hred] at h ⊢
        obtain ⟨hq, hall⟩ := ih (vset.erase n) h
        refine ⟨hq, ?_⟩
        intro m hm hgood
        obtain ⟨hmv, hmap⟩ := hgood
        rcases List.mem_cons.mp hm with rfl | hm'
        · rw [hg] at hmap
          simp at hmap
        · by_cases hmn : m = n
          · subst hmn
            rw [hg] at hmap
            simp at hmap
          · exact hall m hm' ⟨Finset.mem_erase.mpr ⟨hmn, hmv⟩, hmap⟩
    · have hred : get_valid_loop reg vset (n :: rest) = get_valid_loop reg vset rest := by
        simp [get_valid_loop, hn]
      rw [hred] at h ⊢
      obtain ⟨hq, hall⟩ := ih vset h
      refine ⟨hq, ?_⟩
      intro m hm hgood
      rcases List.mem_cons.mp hm with rfl | hm'
      · exact hn hgood.1
      · exact hall m hm' hgood

theorem get_valid_loop_some (reg : List (String × Entry)) :
    ∀ (q : List String) (vset : Finset String) (e : Entry),
      (get_valid_loop reg vset q).1 = some e →
      ∃ n pre suf, q = pre ++ n :: suf ∧
        (∀ m ∈ pre, ¬ goodName reg vset m) ∧
        n ∈ vset ∧ dictGet n reg = some e ∧ e.state = "valid" ∧
        (get_valid_loop reg vset q).2.1 = suf ++ [n] := by
  intro q
  induction q with
  | nil =>
    intro vset e h
    simp [get_valid_loop] at h
  | cons n rest ih =>
    intro vset e h
    by_cases hn : n ∈ vset
    · cases hg : dictGet n reg with
      | some e0 =>
        by_cases hs : e0.state = "valid"
        · have hred : get_valid_loop reg vset (n :: rest) =
              (some e0, rest ++ [n], vset) := by
            simp [get_valid_loop, hn, hg, hs]
          rw [hred] at h
          have he : e0 = e := by simpa using h
          subst he
          exact ⟨n, [], rest, by simp, by simp, hn, hg, hs, by rw [hred]⟩
        · have hred : get_valid_loop reg vset (n :: rest) =
              get_valid_loop reg (vset.erase n) rest := by
            simp [get_valid_loop, hn, hg, hs]
          rw [hred] at h
          obtain ⟨n', pre, suf, hdec, hpre, hn', hg', hv', hq'⟩ :=
            ih (vset.erase n) e h
          refine ⟨n', n :: pre, suf, by rw [hdec]; rfl, ?_,
            Finset.mem_of_mem_erase hn', hg', hv', by rw [hred]; exact hq'⟩
          intro m hm hgood
          obtain ⟨hmv, hmap⟩ := hgood
          rcases List.mem_cons.mp hm with rfl | hm'
          · rw [hg] at hmap
            exact hs (by simpa using hmap)
          · by_cases hmn : m = n
            · subst hmn
              rw [hg] at hmap
              exact hs (by simpa using hmap)
            · exact hpre m hm' ⟨Finset.mem_erase.mpr ⟨hmn, hmv⟩, hmap⟩
      | none =>
        have hred : get_valid_loop reg vset (n :: rest) =
            get_valid_loop reg (vset.erase n) rest := by
          simp [get_valid_loop, hn, hg]
        rw [hred] at h
        obtain ⟨n', pre, suf, hdec, hpre, hn', hg', hv', hq'⟩ :=
          ih (vset.erase n) e h
        refine ⟨n', n :: pre, suf, by rw [hdec]; rfl, ?_,
          Finset.mem_of_mem_erase hn', hg', hv', by rw [hred]; exact hq'⟩
        intro m hm hgood
        obtain ⟨hmv, hmap⟩ := hgood
        rcases List.mem_cons.mp hm with rfl | hm'
        · rw [hg] at hmap
          simp at hmap
        · by_cases hmn : m = n
          · subst hmn
            rw [hg] at hmap
            simp at hmap
          · exact hpre m hm' ⟨Finset.mem_erase.mpr ⟨hmn, hmv⟩, hmap⟩
    · have hred : get_valid_loop reg vset (n :: rest) = get_valid_loop reg vset rest := by
        simp [get_valid_loop, hn]
      rw [hred] at h
      obtain ⟨n', pre, suf, hdec, hpre, hn', hg', hv', hq'⟩ := ih vset e h
      refine ⟨n', n :: pre, suf, by rw [hdec]; rfl, ?_, hn', hg', hv',
        by rw [hred]; exact hq'⟩
      intro m hm hgood
      rcases List.mem_cons.mp hm with rfl | hm'
      · exact hn hgood.1
      · exact hpre m hm' hgood

/-- C2: characterization of handout. `get_valid` walks `valid_queue`
front-first; it returns a record exactly when some queued name is in
`valid_set` with a registry record in state `"valid"`; the first such name
is rotated to the back and its sanitized snapshot returned; names popped
before it are not good; when no queued name qualifies it returns `none`
with the queue drained. The registry, the pending counters, the task
queue and `needs_restart` are untouched, and the operation takes no
provisioner oracle — it performs no I/O. -/
theorem get_valid_spec (s : PoolState) :
    (get_valid s).2.registry = s.registry ∧
    (get_valid s).2.pending_creates = s.pending_creates ∧
    (get_valid s).2.pending_repairs = s.pending_repairs ∧
    (get_valid s).2.needs_restart = s.needs_restart ∧
    (get_valid s).2.task_queue = s.task_queue ∧
    ((get_valid s).1 = none →
      (get_valid s).2.valid_queue = [] ∧
      ∀ n ∈ s.valid_queue, ¬ goodName s.registry s.valid_set n) ∧
    (∀ rec, (get_valid s).1 = some rec →
      ∃ n e pre suf,
        s.valid_queue = pre ++ n :: suf ∧
        (∀ m ∈ pre, ¬ goodName s.registry s.valid_set m) ∧
        n ∈ s.valid_set ∧ dictGet n s.registry = some e ∧ e.state = "valid" ∧
        rec = sanitize_entry e ∧
        (get_valid s).2.valid_queue = suf ++ [n]) := by
  refine ⟨rfl, rfl, rfl, rfl, rfl, ?_, ?_⟩
  · intro h
    cases hl : (get_valid_loop s.registry s.valid_set s.valid_queue).1 with
    | some e =>
      have hsome : (get_valid s).1 = some (sanitize_entry e) := by
        show (get_valid_loop s.registry s.valid_set s.valid_queue).1.map
          sanitize_entry = _
        rw [hl]
        rfl
      rw [hsome] at h
      exact absurd h (by simp)
    | none =>
      exact get_valid_loop_none s.registry s.valid_queue s.valid_set hl
  · intro rec h
    cases hl : (get_valid_loop s.registry s.valid_set s.valid_queue).1 with
    | none =>
      have hnone : (get_valid s).1 = none := by
        show (get_valid_loop s.registry s.valid_set s.valid_queue).1.map
          sanitize_entry = none
        rw [hl]
        rfl
      rw [hnone] at h
      exact absurd h (by simp)
    | some e =>
      have hsome : (get_valid s).1 = some (sanitize_entry e) := by
        show (get_valid_loop s.registry s.valid_set s.valid_queue).1.map
          sanitize_entry = _
        rw [hl]
        rfl
      have hrec : rec = sanitize_entry e := by
        rw [hsome] at h
        exact (Option.some_inj.mp h).symm
      obtain ⟨n, pre, suf, h1, h2, h3, h4, h5, h6⟩ :=
        get_valid_loop_some s.registry s.valid_queue s.valid_set e hl
      exact ⟨n, e, pre, suf, h1, h2, h3, h4, h5, hrec, h6⟩

/-- Witness for C2: handing out from the two-worker pool returns the
snapshot of `A` (a `valid` record) and rotates `A` to the back. -/
theorem get_valid_spec_witness :
    (get_valid poolAB).1 = some (sanitize_entry (exEntry "A" "valid")) ∧
    (∃ n e pre suf,
      poolAB.valid_queue = pre ++ n :: suf ∧
      (∀ m ∈ pre, ¬ goodName poolAB.registry poolAB.valid_set m) ∧
      n ∈ poolAB.valid_set ∧ dictGet n poolAB.registry = some e ∧
      e.state = "valid" ∧
      sanitize_entry (exEntry "A" "valid") = sanitize_entry e ∧
      (get_valid poolAB).2.valid_queue = suf ++ [n]) :=
  ⟨by decide,
    (get_valid_spec poolAB).2.2.2.2.2.2 (sanitize_entry (exEntry "A" "valid"))
      (by decide)⟩

theorem get_valid_loop_discards (reg : List (String × Entry)) :
    ∀ (q : List String) (vset : Finset String),
      (get_valid_loop reg vset q).2.2 =
        vset \ (get_valid_discards reg vset q).toFinset ∧
      ∀ n ∈ get_valid_discards reg vset q,
        n ∈ q ∧ n ∈ vset ∧ ¬ (dictGet n reg).map Entry.state = some "valid" := by
  intro q
  induction q with
  | nil =>
    intro vset
    refine ⟨by simp [get_valid_loop, get_valid_discards], ?_⟩
    intro n hn
    simp [get_valid_discards] at hn
  | cons n rest ih =>
    intro vset
    by_cases hn : n ∈ vset
    · cases hg : dictGet n reg with
      | some e =>
        by_cases hs : e.state = "valid"
        · have hred : get_valid_loop reg vset (n :: rest) =
              (some e, rest ++ [n], vset) := by
            simp [get_valid_loop, hn, hg, hs]
          have hd : get_valid_discards reg vset (n :: rest) = [] := by
            simp [get_valid_discards, hn, hg, hs]
          rw [hred, hd]
          refine ⟨by simp, ?_⟩
          intro m hm
          simp at hm
        · have hred : get_valid_loop reg vset (n :: rest) =
              get_valid_loop reg (vset.erase n) rest := by
            simp [get_valid_loop, hn, hg, hs]
          have hd : get_valid_discards reg vset (n :: rest) =
              n :: get_valid_discards reg (vset.erase n) rest := by
            simp [get_valid_discards, hn, hg, hs]
          rw [hred, hd]
          obtain ⟨hv, hmem⟩ := ih (vset.erase n)
          constructor
          · rw [hv]
            ext x
            simp only [Finset.mem_sdiff, Finset.mem_erase, List.toFinset_cons,
              Finset.mem_insert, List.mem_toFinset]
            constructor
            · rintro ⟨⟨hxn, hxv⟩, hxd⟩
              exact ⟨hxv, fun hc => hc.elim hxn (fun hc' => hxd hc')⟩
            · rintro ⟨hxv, hxd⟩
              exact ⟨⟨fun hc => hxd (Or.inl hc), hxv⟩,
                fun hc => hxd (Or.inr hc)⟩
          · intro m hm
            rcases List.mem_cons.mp hm with rfl | hm'
            · refine ⟨List.mem_cons_self _ _, hn, ?_⟩
              rw [hg]
              simp [hs]
            · obtain ⟨hq', hv', hb'⟩ := hmem m hm'
              exact ⟨List.mem_cons_of_mem _ hq', Finset.mem_of_mem_erase hv', hb'⟩
      | none =>
        have hred : get_valid_loop reg vset (n :: rest) =
            get_valid_loop reg (vset.erase n) rest := by
          simp [get_valid_loop, hn, hg]
        have hd : get_valid_discards reg vset (n :: rest) =
            n :: get_valid_discards reg (vset.erase n) rest := by
          simp [get_valid_discards, hn, hg]
        rw [hred, hd]
        obtain ⟨hv, hmem⟩ := ih (vset.erase n)
        constructor
        · rw [hv]
          ext x
          simp only [Finset.mem_sdiff, Finset.mem_erase, List.toFinset_cons,
            Finset.mem_insert, List.mem_toFinset]
          constructor
          · rintro ⟨⟨hxn, hxv⟩, hxd⟩
            exact ⟨hxv, fun hc => hc.elim hxn (fun hc' => hxd hc')⟩
          · rintro ⟨hxv, hxd⟩
            exact ⟨⟨fun hc => hxd (Or.inl hc), hxv⟩, fun hc => hxd (Or.inr hc)⟩
        · intro m hm
          rcases List.mem_cons.mp hm with rfl | hm'
          · refine ⟨List.mem_cons_self _ _, hn, ?_⟩
            rw [hg]
            simp
          · obtain ⟨hq', hv', hb'⟩ := hmem m hm'
            exact ⟨List.mem_cons_of_mem _ hq', Finset.mem_of_mem_erase hv', hb'⟩
    · have hred : get_valid_loop reg vset (n :: rest) =
          get_valid_loop reg vset rest := by
        simp [get_valid_loop, hn]
      have hd : get_valid_discards reg vset (n :: rest) =
          get_valid_discards reg vset rest := by
        simp [get_valid_discards, hn]
      rw [hred, hd]
      obtain ⟨hv, hmem⟩ := ih vset
      refine ⟨hv, ?_⟩
      intro m hm
      obtain ⟨hq', hv', hb'⟩ := hmem m hm
      exact ⟨List.mem_cons_of_mem _ hq', hv', hb'⟩

theorem get_valid_loop_none_not_mem (reg : List (String × Entry)) :
    ∀ (q : List String) (vset : Finset String),
      (get_valid_loop reg vset q).1 = none →
      ∀ n ∈ (get_valid_loop reg vset q).2.2, n ∉ q := by
  intro q
  induction q with
  | nil =>
    intro vset h n hn
    simp
  | cons n rest ih =>
    intro vset h m hm
    by_cases hn : n ∈ vset
    · cases hg : dictGet n reg with
      | some e =>
        by_cases hs : e.state = "valid"
        · have hred : get_valid_loop reg vset (n :: rest) =
              (some e, rest ++ [n], vset) := by
            simp [get_valid_loop, hn, hg, hs]
          rw [hred] at h
          exact absurd h (by simp)
        · have hred : get_valid_loop reg vset (n :: rest) =
              get_valid_loop reg (vset.erase n) rest := by
            simp [get_valid_loop, hn, hg, hs]
          rw [hred] at h hm
          have hsub := get_valid_loop_vset_subset reg rest (vset.erase n) hm
          intro hc
          rcases List.mem_cons.mp hc with rfl | hc'
          · exact (Finset.not_mem_erase m vset) hsub
          · exact ih (vset.erase n) h m hm hc'
      | none =>
        have hred : get_valid_loop reg vset (n :: rest) =
            get_valid_loop reg (vset.erase n) rest := by
          simp [get_valid_loop, hn, hg]
        rw [hred] at h hm
        have hsub := get_valid_loop_vset_subset reg rest (vset.erase n) hm
        intro hc
        rcases List.mem_cons.mp hc with rfl | hc'
        · exact (Finset.not_mem_erase m vset) hsub
        · exact ih (vset.erase n) h m hm hc'
    · have hred : get_valid_loop reg vset (n :: rest) =
          get_valid_loop reg vset rest := by
        simp [get_valid_loop, hn]
      rw [hred] at h hm
      have hsub := get_valid_loop_vset_subset reg rest vset hm
      intro hc
      rcases List.mem_cons.mp hc with rfl | hc'
      · exact hn hsub
      · exact ih vset h m hm hc'

/-- C10: acquire self-heals `valid_set` membership. The names a
`get_valid` walk discards are exactly subtracted from `valid_set`; each of
them was popped from the queue while in `valid_set` with a registry record
that is missing or not `"valid"`, and none survives in the final
`valid_set`; when the walk drains the queue (returns `none`), no member of
the final `valid_set` is a queued name, so every queued violation of the
invariant `valid_set ⊆ {n | registry[n].state = valid}` has been
repaired by the handout itself. -/
theorem get_valid_self_heal (s : PoolState) :
    (get_valid s).2.valid_set =
      s.valid_set \
        (get_valid_discards s.registry s.valid_set s.valid_queue).toFinset ∧
    (∀ n ∈ get_valid_discards s.registry s.valid_set s.valid_queue,
      n ∈ s.valid_queue ∧ n ∈ s.valid_set ∧
      ¬ (dictGet n s.registry).map Entry.state = some "valid" ∧
      n ∉ (get_valid s).2.valid_set) ∧
    ((get_valid s).1 = none →
      ∀ n ∈ (get_valid s).2.valid_set, n ∉ s.valid_queue) := by
  obtain ⟨hv, hmem⟩ := get_valid_loop_discards s.registry s.valid_queue s.valid_set
  refine ⟨hv, ?_, ?_⟩
  · intro n hn
    obtain ⟨hq', hv', hb'⟩ := hmem n hn
    refine ⟨hq', hv', hb', ?_⟩
    intro hmem'
    have : n ∈ s.valid_set \
        (get_valid_discards s.registry s.valid_set s.valid_queue).toFinset := by
      rw [← hv]
      exact hmem'
    exact (Finset.mem_sdiff.mp this).2 (List.mem_toFinset.mpr hn)
  · intro h n hn
    cases hl : (get_valid_loop s.registry s.valid_set s.valid_queue).1 with
    | some e =>
      have hsome : (get_valid s).1 = some (sanitize_entry e) := by
        show (get_valid_loop s.registry s.valid_set s.valid_queue).1.map
          sanitize_entry = _
        rw [hl]
        rfl
      rw [hsome] at h
      exact absurd h (by simp)
    | none =>
      exact get_valid_loop_none_not_mem s.registry s.valid_queue s.valid_set hl n hn

/-- Witness for C10: in `poolMix`, worker `A` (queued, in `valid_set`, but
invalid in the registry) is discarded from `valid_set` by the handout. -/
theorem get_valid_self_heal_witness :
    "A" ∈ get_valid_discards poolMix.registry poolMix.valid_set poolMix.valid_queue ∧
    ("A" ∈ poolMix.valid_queue ∧ "A" ∈ poolMix.valid_set ∧
      ¬ (dictGet "A" poolMix.registry).map Entry.state = some "valid" ∧
      "A" ∉ (get_valid poolMix).2.valid_set) :=
  ⟨by decide, (get_valid_self_heal poolMix).2.1 "A" (by decide)⟩

theorem rwr_loop_inl (name : String) (results : Nat → CallResult) (clock : Nat → Int)
    (deadline : Int) (maxAtt : Nat) (now : Nat) (s : PoolState) :
    ∀ (fuel attempts tIdx : Nat) (lastErr : Option String)
      (rep : SweepReport) (s' : PoolState),
      rwr_loop name results clock deadline maxAtt now s fuel attempts tIdx lastErr =
        .inl (rep, s') →
      ∃ j r, attempts ≤ j ∧ j < attempts + fuel ∧
        results j = CallResult.ret r ∧ r.status = some "ok" ∧
        (∀ i, attempts ≤ i → i < j →
          ¬ ∃ r', results i = CallResult.ret r' ∧ r'.status = some "ok") ∧
        rep = .recovered ((store_valid_locked r now s).1.map sanitize_entry)
          (j + 1) name ∧
        s' = (store_valid_locked r now s).2 := by
  intro fuel
  induction fuel with
  | zero =>
    intro attempts tIdx lastErr rep s' h
    simp [rwr_loop] at h
  | succ fuel ih =>
    intro attempts tIdx lastErr rep s' h
    rw [rwr_loop] at h
    by_cases hdl : deadline < clock tIdx
    · rw [if_pos hdl] at h
      exact absurd h (by simp)
    · rw [if_neg hdl] at h
      cases hres : results attempts with
      | ret r =>
        rw [hres] at h
        dsimp only at h
        by_cases hok : r.status = some "ok"
        · rw [if_pos hok] at h
          simp only [Sum.inl.injEq, Prod.mk.injEq] at h
          obtain ⟨hrep, hs'⟩ := h
          exact ⟨attempts, r, le_rfl, by omega, hres, hok,
            fun i h1 h2 => absurd (lt_of_le_of_lt h1 h2) (lt_irrefl _),
            hrep.symm, hs'.symm⟩
        · rw [if_neg hok] at h
          by_cases hbr : maxAtt ≤ attempts + 1 ∨ deadline - clock (tIdx + 1) ≤ 0
          · rw [if_pos hbr] at h
            exact absurd h (by simp)
          · rw [if_neg hbr] at h
            obtain ⟨j, r', hj1, hj2, hj3, hj4, hj5, hj6, hj7⟩ :=
              ih (attempts + 1) (tIdx + 2) r.message rep s' h
            refine ⟨j, r', by omega, by omega, hj3, hj4, ?_, hj6, hj7⟩
            intro i hi1 hi2
            by_cases hieq : i = attempts
            · subst hieq
              rintro ⟨r'', hr1, hr2⟩
              rw [hres] at hr1
              cases hr1
              exact hok hr2
            · exact hj5 i (by omega) hi2
      | exn m =>
        rw [hres] at h
        dsimp only at h
        by_cases hbr : maxAtt ≤ attempts + 1 ∨ deadline - clock (tIdx + 1) ≤ 0
        · rw [if_pos hbr] at h
          exact absurd h (by simp)
        · rw [if_neg hbr] at h
          obtain ⟨j, r', hj1, hj2, hj3, hj4, hj5, hj6, hj7⟩ :=
            ih (attempts + 1) (tIdx + 2) (some m) rep s' h
          refine ⟨j, r', by omega, by omega, hj3, hj4, ?_, hj6, hj7⟩
          intro i hi1 hi2
          by_cases hieq : i = attempts
          · subst hieq
            rintro ⟨r'', hr1, hr2⟩
            rw [hres] at hr1
            cases hr1
          · exact hj5 i (by omega) hi2

theorem rwr_loop_inr (name : String) (results : Nat → CallResult) (clock : Nat → Int)
    (deadline : Int) (maxAtt : Nat) (now : Nat) (s : PoolState) :
    ∀ (fuel attempts tIdx : Nat) (lastErr : Option String)
      (a : Nat) (le : Option String),
      rwr_loop name results clock deadline maxAtt now s fuel attempts tIdx lastErr =
        .inr (a, le) →
      attempts ≤ a ∧ a ≤ attempts + fuel ∧
      (∀ i, attempts ≤ i → i < a →
        ¬ ∃ r', results i = CallResult.ret r' ∧ r'.status = some "ok") := by
  intro fuel
  induction fuel with
  | zero =>
    intro attempts tIdx lastErr a le h
    simp only [rwr_loop, Sum.inr.injEq, Prod.mk.injEq] at h
    obtain ⟨ha, -⟩ := h
    subst ha
    exact ⟨le_rfl, by omega, fun i h1 h2 => absurd (lt_of_le_of_lt h1 h2) (lt_irrefl _)⟩
  | succ fuel ih =>
    intro attempts tIdx lastErr a le h
    rw [rwr_loop] at h
    by_cases hdl : deadline < clock tIdx
    · rw [if_pos hdl] at h
      simp only [Sum.inr.injEq, Prod.mk.injEq] at h
      obtain ⟨ha, -⟩ := h
      subst ha
      exact ⟨le_rfl, by omega,
        fun i h1 h2 => absurd (lt_of_le_of_lt h1 h2) (lt_irrefl _)⟩
    · rw [if_neg hdl] at h
      cases hres : results attempts with
      | ret r =>
        rw [hres] at h
        dsimp only at h
        by_cases hok : r.status = some "ok"
        · rw [if_pos hok] at h
          exact absurd h (by simp)
        · rw [if_neg hok] at h
          by_cases hbr : maxAtt ≤ attempts + 1 ∨ deadline - clock (tIdx + 1) ≤ 0
          · rw [if_pos hbr] at h
            simp only [Sum.inr.injEq, Prod.mk.injEq] at h
            obtain ⟨ha, -⟩ := h
            subst ha
            refine ⟨by omega, by omega, ?_⟩
            intro i hi1 hi2
            have hieq : i = attempts := by omega
            subst hieq
            rintro ⟨r'', hr1, hr2⟩
            rw [hres] at hr1
            cases hr1
            exact hok hr2
          · rw [if_neg hbr] at h
            obtain ⟨h1, h2, h3⟩ := ih (attempts + 1) (tIdx + 2) r.message a le h
            refine ⟨by omega, by omega, ?_⟩
            intro i hi1 hi2
            by_cases hieq : i = attempts
            · subst hieq
              rintro ⟨r'', hr1, hr2⟩
              rw [hres] at hr1
              cases hr1
              exact hok hr2
            · exact h3 i (by omega) hi2
      | exn m =>
        rw [hres] at h
        dsimp only at h
        by_cases hbr : maxAtt ≤ attempts + 1 ∨ deadline - clock (tIdx + 1) ≤ 0
        · rw [if_pos hbr] at h
          simp only [Sum.inr.injEq, Prod.mk.injEq] at h
          obtain ⟨ha, -⟩ := h
          subst ha
          refine ⟨by omega, by omega, ?_⟩
          intro i hi1 hi2
          have hieq : i = attempts := by omega
          subst hieq
          rintro ⟨r'', hr1, hr2⟩
          rw [hres] at hr1
          cases hr1
        · rw [if_neg hbr] at h
          obtain ⟨h1, h2, h3⟩ := ih (attempts + 1) (tIdx + 2) (some m) a le h
          refine ⟨by omega, by omega, ?_⟩
          intro i hi1 hi2
          by_cases hieq : i = attempts
          · subst hieq
            rintro ⟨r'', hr1, hr2⟩
            rw [hres] at hr1
            cases hr1
          · exact h3 i (by omega) hi2

theorem restart_with_retries_cname (name : String) (results : Nat → CallResult)
    (clock : Nat → Int) (provC : CallResult) (now : Nat) (s : PoolState) :
    (restart_with_retries name results clock provC now s).1.cname = name := by
  unfold restart_with_retries
  cases hg : dictGet name s.registry with
  | none => rfl
  | some e =>
    dsimp only
    cases hloop : rwr_loop name results clock (clock 0 + s.restart_wait_seconds)
        s.max_repair_attempts now s s.max_repair_attempts 0 1 none with
    | inl p =>
      obtain ⟨rep, s1⟩ := p
      obtain ⟨j, r, -, -, -, -, -, hrep, -⟩ :=
        rwr_loop_inl name results clock (clock 0 + s.restart_wait_seconds)
          s.max_repair_attempts now s s.max_repair_attempts 0 1 none rep s1 hloop
      subst hrep
      rfl
    | inr p =>
      obtain ⟨a, le⟩ := p
      rfl

theorem sweep_go_cnames (results : String → Nat → CallResult)
    (clock : String → Nat → Int) (provC : String → CallResult) (now : Nat) :
    ∀ (l : List String) (s : PoolState),
      (sweep_go results clock provC now l s).1.map SweepReport.cname = l := by
  intro l
  induction l with
  | nil => intro s; rfl
  | cons n rest ih =>
    intro s
    have hcons : (sweep_go results clock provC now (n :: rest) s).1 =
        (restart_with_retries n (results n) (clock n) (provC n) now s).1 ::
          (sweep_go results clock provC now rest
            (restart_with_retries n (results n) (clock n) (provC n) now s).2.1).1 := rfl
    rw [hcons, List.map_cons, restart_with_retries_cname, ih]

/-- C5: the sweeper. `run_sweeper` produces exactly one report per element
of the target set — the union of `needs_restart` and the names whose
registry record is not `"valid"` — in the model's deterministic order.
For each target, `_restart_with_retries` reports `missing` exactly when
the name has left the registry (only the restart flag is discarded);
`recovered c k` only when the `k`-th `RestartAndCheck` outcome is the
first success within the attempt budget, the result having been stored
valid; and `replaced` only when no attempt made succeeded, in which case
the best-effort delete call is issued, the worker is removed from the
registry and all sets and queues, and a replacement create is scheduled
via `_schedule_create`. -/
theorem run_sweeper_spec (results : String → Nat → CallResult)
    (clock : String → Nat → Int) (provC : String → CallResult) (now : Nat)
    (s : PoolState) (name : String) (res1 : Nat → CallResult) (cl1 : Nat → Int)
    (pc1 : CallResult) (hmax : 1 ≤ s.max_repair_attempts)
    (hq : s.valid_queue.count name ≤ 1) :
    ((run_sweeper results clock provC now s).1.map SweepReport.cname =
        sweep_target_list s ∧
      (sweep_target_list s).toFinset = gather_sweep_targets s) ∧
    (dictGet name s.registry = none →
      restart_with_retries name res1 cl1 pc1 now s =
        (.missing name, { s with needs_restart := s.needs_restart.erase name }, [])) ∧
    (∀ e, dictGet name s.registry = some e →
      (∀ c k nm,
        (restart_with_retries name res1 cl1 pc1 now s).1 =
          SweepReport.recovered c k nm →
        nm = name ∧ 1 ≤ k ∧ k ≤ s.max_repair_attempts ∧
        ∃ r, res1 (k - 1) = CallResult.ret r ∧ r.status = some "ok" ∧
          (∀ i, i < k - 1 →
            ¬ ∃ r', res1 i = CallResult.ret r' ∧ r'.status = some "ok") ∧
          c = (store_valid_locked r now s).1.map sanitize_entry ∧
          (restart_with_retries name res1 cl1 pc1 now s).2.1 =
            (store_valid_locked r now s).2 ∧
          (r.container_name ≠ "" →
            dictGet r.container_name
              (restart_with_retries name res1 cl1 pc1 now s).2.1.registry =
              some (Entry.ofResult r now) ∧
            (Entry.ofResult r now).state = "valid") ∧
          (restart_with_retries name res1 cl1 pc1 now s).2.2 = []) ∧
      (∀ nm a err,
        (restart_with_retries name res1 cl1 pc1 now s).1 =
          SweepReport.replaced nm a err →
        nm = name ∧ 1 ≤ a ∧ a ≤ s.max_repair_attempts ∧
        (∃ b, b ≤ s.max_repair_attempts ∧
          (∀ i, i < b →
            ¬ ∃ r', res1 i = CallResult.ret r' ∧ r'.status = some "ok") ∧
          a = if b = 0 then s.max_repair_attempts else b) ∧
        (restart_with_retries name res1 cl1 pc1 now s).2.2 =
          [ExtCall.deleteProxy name] ∧
        (restart_with_retries name res1 cl1 pc1 now s).2.1 =
          schedule_create pc1 now (remove_container_locked name s).2 ∧
        (s.start_worker = true →
          dictGet name
              (restart_with_retries name res1 cl1 pc1 now s).2.1.registry = none ∧
          name ∉ (restart_with_retries name res1 cl1 pc1 now s).2.1.valid_set ∧
          name ∉ (restart_with_retries name res1 cl1 pc1 now s).2.1.valid_queue ∧
          name ∉ (restart_with_retries name res1 cl1 pc1 now s).2.1.pending_repairs ∧
          name ∉ (restart_with_retries name res1 cl1 pc1 now s).2.1.needs_restart))) := by
  refine ⟨⟨sweep_go_cnames results clock provC now (sweep_target_list s) s,
    Finset.sort_toFinset _ _⟩, ?_, ?_⟩
  · intro hg
    unfold restart_with_retries
    rw [hg]
  · intro e hg
    constructor
    · intro c k nm hrep
      cases hloop : rwr_loop name res1 cl1 (cl1 0 + s.restart_wait_seconds)
          s.max_repair_attempts now s s.max_repair_attempts 0 1 none with
      | inl p =>
        obtain ⟨rep, s1⟩ := p
        have hred : restart_with_retries name res1 cl1 pc1 now s = (rep, s1, []) := by
          unfold restart_with_retries
          rw [hg]
          dsimp only
          rw [hloop]
        obtain ⟨j, r, hj1, hj2, hj3, hj4, hj5, hrepe, hs1⟩ :=
          rwr_loop_inl name res1 cl1 (cl1 0 + s.restart_wait_seconds)
            s.max_repair_attempts now s s.max_repair_attempts 0 1 none rep s1 hloop
        rw [hred] at hrep
        dsimp only at hrep
        rw [hrepe] at hrep
        injection hrep with hc hk hnm
        refine ⟨hnm.symm, by omega, by omega, r, ?_, hj4, ?_, hc.symm, ?_, ?_, ?_⟩
        · have : k - 1 = j := by omega
          rw [this]
          exact hj3
        · intro i hi
          exact hj5 i (by omega) (by omega)
        · rw [hred]
          exact hs1
        · intro hname
          rw [hred]
          dsimp only
          rw [hs1, store_valid_locked_eq r now s hname]
          exact ⟨dictGet_insert_self _ _ _, rfl⟩
        · rw [hred]
      | inr p =>
        obtain ⟨a', le'⟩ := p
        have hred : (restart_with_retries name res1 cl1 pc1 now s).1 =
            SweepReport.replaced name
              (if a' = 0 then s.max_repair_attempts else a') (error_message le') := by
          unfold restart_with_retries
          rw [hg]
          dsimp only
          rw [hloop]
        rw [hred] at hrep
        exact absurd hrep (by simp)
    · intro nm a err hrep
      cases hloop : rwr_loop name res1 cl1 (cl1 0 + s.restart_wait_seconds)
          s.max_repair_attempts now s s.max_repair_attempts 0 1 none with
      | inl p =>
        obtain ⟨rep, s1⟩ := p
        obtain ⟨j, r, hj1, hj2, hj3, hj4, hj5, hrepe, hs1⟩ :=
          rwr_loop_inl name res1 cl1 (cl1 0 + s.restart_wait_seconds)
            s.max_repair_attempts now s s.max_repair_attempts 0 1 none rep s1 hloop
        have hred : (restart_with_retries name res1 cl1 pc1 now s).1 = rep := by
          unfold restart_with_retries
          rw [hg]
          dsimp only
          rw [hloop]
        rw [hred, hrepe] at hrep
        exact absurd hrep (by simp)
      | inr p =>
        obtain ⟨a', le'⟩ := p
        have hrem : (remove_container_locked name s).1 = true := by
          unfold remove_container_locked
          rw [hg]
          rfl
        have hred : restart_with_retries name res1 cl1 pc1 now s =
            (SweepReport.replaced name
                (if a' = 0 then s.max_repair_attempts else a') (error_message le'),
              schedule_create pc1 now (remove_container_locked name s).2,
              [ExtCall.deleteProxy name]) := by
          unfold restart_with_retries
          rw [hg]
          dsimp only
          rw [hloop]
          dsimp only
          rw [hrem]
          rfl
        obtain ⟨ha1, ha2, ha3⟩ :=
          rwr_loop_inr name res1 cl1 (cl1 0 + s.restart_wait_seconds)
            s.max_repair_attempts now s s.max_repair_attempts 0 1 none a' le' hloop
        rw [hred] at hrep
        dsimp only at hrep
        injection hrep with hnm hka herr
        have hstart : ((remove_container_locked name s).2).start_worker =
            s.start_worker := rfl
        refine ⟨hnm.symm, ?_, ?_, ⟨a', by omega, fun i hi => ha3 i (by omega) hi,
          hka.symm⟩, by rw [hred], by rw [hred], ?_⟩
        · by_cases hz : a' = 0
          · rw [← hka, if_pos hz]
            omega
          · rw [← hka, if_neg hz]
            omega
        · by_cases hz : a' = 0
          · rw [← hka, if_pos hz]
          · rw [← hka, if_neg hz]
            omega
        · intro hw
          have hw2 : ((remove_container_locked name s).2).start_worker = true := by
            rw [hstart]
            exact hw
          have hfr := schedule_create_worker_frame pc1 now
            (remove_container_locked name s).2 hw2
          rw [hred]
          dsimp only
          refine ⟨?_, ?_, ?_, ?_, ?_⟩
          · rw [hfr.1]
            exact dictGet_remove_self _ _
          · rw [hfr.2.1]
            exact Finset.not_mem_erase _ _
          · rw [hfr.2.2.1]
            have h0 : (s.valid_queue.erase name).count name = 0 := by
              rw [List.count_erase_self]
              omega
            exact List.count_eq_zero.mp h0
          · rw [hfr.2.2.2.1]
            exact Finset.not_mem_erase _ _
          · rw [hfr.2.2.2.2]
            exact Finset.not_mem_erase _ _

/-- Witness for C5: sweeping `poolMix`, whose only target is the invalid
worker `A`; a recovering oracle yields one report for exactly that
target. -/
theorem run_sweeper_spec_witness :
    1 ≤ poolMix.max_repair_attempts ∧ poolMix.valid_queue.count "A" ≤ 1 ∧
    ((run_sweeper (fun _ _ => .ret (exResult "A")) (fun _ _ => 0)
        (fun _ => .exn "no") 9 poolMix).1.map SweepReport.cname =
      sweep_target_list poolMix ∧
      (sweep_target_list poolMix).toFinset = gather_sweep_targets poolMix) :=
  ⟨by decide, by decide,
    (run_sweeper_spec (fun _ _ => .ret (exResult "A")) (fun _ _ => 0)
      (fun _ => .exn "no") 9 poolMix "A"
      (fun _ => .ret { exResult "A" with message := some "x" }) (fun _ => 0)
      (.exn "no") (by decide) (by decide)).1⟩

end VpnPool
